import Mathlib

/-!
Shallow embedding of the trace-logger repository (TypeScript) in Lean 4.

Conventions used throughout:
* JS strings are modelled as `List Char` (`Str`).
* `Date.now()` readings are modelled as explicit `Int` parameters threaded
  through the state-transition functions; JS numeric subtraction on
  timestamps is `Int` subtraction.
* A method that mutates `this` is modelled as a function from the old state
  to the new state (paired with its return value where the source returns
  one).
-/

abbrev Str := List Char

/-! ### src/circuit-breaker.ts -/

/-- Options record of `LoggerCircuitBreaker` with the defaults applied in the
constructor (`?? 5`, `?? 30000`, `?? 60000`). -/
structure CircuitBreakerOptions where
  circuitBreakerCount : Nat := 5
  circuitBreakerTime : Int := 30000
  circuitBreakerCooldown : Int := 60000
deriving Repr, DecidableEq

/-- Mutable fields of `LoggerCircuitBreaker`: `errorCount`, `lastResetTime`
and `isOpen` (initialised to `0`, construction time and `false`). -/
structure CBState where
  errorCount : Nat := 0
  lastResetTime : Int
  isOpen : Bool := false
deriving Repr, DecidableEq

/-- `LoggerCircuitBreaker.isEnabled`: returns `true` when the breaker is not
open; when open and the cooldown has elapsed since `lastResetTime`, closes
the breaker, zeroes `errorCount` and returns `true`; otherwise returns
`false`.  The pair is (returned boolean, state of `this` afterwards). -/
def isEnabled (o : CircuitBreakerOptions) (now : Int) (s : CBState) :
    Bool × CBState :=
  if s.isOpen = false then (true, s)
  else if o.circuitBreakerCooldown ≤ now - s.lastResetTime then
    (true, { s with isOpen := false, errorCount := 0 })
  else (false, s)

/-- `LoggerCircuitBreaker.incrementErrorCount`: no-op when open; otherwise
resets the count to 1 when the window is stale (`now - lastResetTime >
circuitBreakerTime`), else increments it; sets `lastResetTime := now`; trips
(`isOpen := true`, callback invoked) when the new count reaches
`circuitBreakerCount`.  The second component records whether the
`circuitBreakerCallback` was invoked during this call. -/
def incrementErrorCount (o : CircuitBreakerOptions) (now : Int) (s : CBState) :
    CBState × Bool :=
  if s.isOpen then (s, false)
  else
    let ec : Nat :=
      if o.circuitBreakerTime < now - s.lastResetTime then 1
      else s.errorCount + 1
    let tripped : Bool := decide (o.circuitBreakerCount ≤ ec)
    ({ errorCount := ec, lastResetTime := now, isOpen := tripped }, tripped)

/-- `LoggerCircuitBreaker.enable`: manual reset. -/
def enable (now : Int) (_s : CBState) : CBState :=
  { errorCount := 0, lastResetTime := now, isOpen := false }

/-- The last element of `ts`, or `d` when `ts` is empty. -/
def lastTime (d : Int) (ts : List Int) : Int :=
  ts.foldl (fun _ t => t) d

/-- Folding `incrementErrorCount` over a list of failure timestamps:
the breaker state after one `recordFailure` call per element. -/
def recordFailures (o : CircuitBreakerOptions) (ts : List Int) (s : CBState) :
    CBState :=
  ts.foldl (fun s t => (incrementErrorCount o t s).1) s

lemma incrementErrorCount_within (o : CircuitBreakerOptions) (now : Int)
    (s : CBState) (h : s.isOpen = false)
    (hg : now - s.lastResetTime ≤ o.circuitBreakerTime) :
    incrementErrorCount o now s =
      ({ errorCount := s.errorCount + 1, lastResetTime := now,
         isOpen := decide (o.circuitBreakerCount ≤ s.errorCount + 1) },
       decide (o.circuitBreakerCount ≤ s.errorCount + 1)) := by
  simp [incrementErrorCount, h, not_lt.mpr hg]

lemma incrementErrorCount_stale (o : CircuitBreakerOptions) (now : Int)
    (s : CBState) (h : s.isOpen = false)
    (hg : o.circuitBreakerTime < now - s.lastResetTime) :
    incrementErrorCount o now s =
      ({ errorCount := 1, lastResetTime := now,
         isOpen := decide (o.circuitBreakerCount ≤ 1) },
       decide (o.circuitBreakerCount ≤ 1)) := by
  simp [incrementErrorCount, h, hg]

lemma incrementErrorCount_fresh (o : CircuitBreakerOptions) (now : Int)
    (s : CBState) (h : s.isOpen = false) (hc : s.errorCount = 0) :
    incrementErrorCount o now s =
      ({ errorCount := 1, lastResetTime := now,
         isOpen := decide (o.circuitBreakerCount ≤ 1) },
       decide (o.circuitBreakerCount ≤ 1)) := by
  by_cases hg : o.circuitBreakerTime < now - s.lastResetTime
  · exact incrementErrorCount_stale o now s h hg
  · rw [incrementErrorCount_within o now s h (not_lt.mp hg), hc]

/-- Any run of in-window failures that stays strictly below the threshold
leaves the breaker closed, with the count grown by one per failure and the
window anchored at the last failure. -/
lemma recordFailures_no_trip (o : CircuitBreakerOptions) :
    ∀ (ts : List Int) (s : CBState), s.isOpen = false →
    List.Chain (fun a b => b - a ≤ o.circuitBreakerTime) s.lastResetTime ts →
    s.errorCount + ts.length < o.circuitBreakerCount →
    recordFailures o ts s =
      { errorCount := s.errorCount + ts.length,
        lastResetTime := lastTime s.lastResetTime ts,
        isOpen := false } := by
  intro ts
  induction ts with
  | nil =>
      intro s hopen _ _
      cases s with
      | mk ec lrt op => simp_all [recordFailures, lastTime]
  | cons t rest ih =>
      intro s hopen hchain hlt
      rcases hchain with _ | ⟨hgap, hchain'⟩
      simp only [List.length_cons] at hlt
      have hlt' : s.errorCount + 1 < o.circuitBreakerCount := by omega
      have hstep : (incrementErrorCount o t s).1 =
          { errorCount := s.errorCount + 1, lastResetTime := t,
            isOpen := false } := by
        rw [incrementErrorCount_within o t s hopen hgap]
        simp [decide_eq_false (not_le.mpr hlt')]
      have hrec : recordFailures o (t :: rest) s =
          recordFailures o rest
            { errorCount := s.errorCount + 1, lastResetTime := t,
              isOpen := false } := by
        simp [recordFailures, hstep]
      rw [hrec, ih _ rfl (by simpa using hchain') (by simp; omega)]
      simp [CBState.mk.injEq, lastTime]
      all_goals omega

/-- A run of in-window failures whose length brings the count exactly to the
threshold trips the breaker at its last element. -/
lemma recordFailures_trip (o : CircuitBreakerOptions) :
    ∀ (ts : List Int) (s : CBState), s.isOpen = false →
    List.Chain (fun a b => b - a ≤ o.circuitBreakerTime) s.lastResetTime ts →
    s.errorCount + ts.length = o.circuitBreakerCount →
    ts ≠ [] →
    recordFailures o ts s =
      { errorCount := o.circuitBreakerCount,
        lastResetTime := lastTime s.lastResetTime ts,
        isOpen := true } := by
  intro ts
  induction ts with
  | nil => intro _ _ _ _ hne; exact absurd rfl hne
  | cons t rest ih =>
      intro s hopen hchain hlen _
      rcases hchain with _ | ⟨hgap, hchain'⟩
      rcases rest with _ | ⟨t2, rest'⟩
      · have hT : o.circuitBreakerCount = s.errorCount + 1 := by
          simpa using hlen.symm
        have hstep : incrementErrorCount o t s =
            ({ errorCount := s.errorCount + 1, lastResetTime := t,
               isOpen := decide (o.circuitBreakerCount ≤ s.errorCount + 1) },
             decide (o.circuitBreakerCount ≤ s.errorCount + 1)) :=
          incrementErrorCount_within o t s hopen hgap
        simp [recordFailures, hstep, hT, lastTime]
      · simp only [List.length_cons] at hlen
        have hlt' : s.errorCount + 1 < o.circuitBreakerCount := by omega
        have hstep : (incrementErrorCount o t s).1 =
            { errorCount := s.errorCount + 1, lastResetTime := t,
              isOpen := false } := by
          rw [incrementErrorCount_within o t s hopen hgap]
          simp [decide_eq_false (not_le.mpr hlt')]
        have hrec : recordFailures o (t :: t2 :: rest') s =
            recordFailures o (t2 :: rest')
              { errorCount := s.errorCount + 1, lastResetTime := t,
                isOpen := false } := by
          simp [recordFailures, hstep]
        rw [hrec, ih _ rfl (by simpa using hchain') (by simp; omega) (by simp)]
        simp [CBState.mk.injEq, lastTime]

lemma isEnabled_closed (o : CircuitBreakerOptions) (now : Int) (s : CBState)
    (h : s.isOpen = false) : isEnabled o now s = (true, s) := by
  simp [isEnabled, h]

lemma isEnabled_open_hot (o : CircuitBreakerOptions) (now : Int) (s : CBState)
    (h : s.isOpen = true)
    (hc : now - s.lastResetTime < o.circuitBreakerCooldown) :
    isEnabled o now s = (false, s) := by
  simp [isEnabled, h, not_le.mpr hc]

lemma isEnabled_open_cool (o : CircuitBreakerOptions) (now : Int) (s : CBState)
    (h : s.isOpen = true)
    (hc : o.circuitBreakerCooldown ≤ now - s.lastResetTime) :
    isEnabled o now s =
      (true, { s with isOpen := false, errorCount := 0 }) := by
  simp [isEnabled, h, hc]

lemma chain'_cons_chain {R : Int → Int → Prop} {a : Int} {l : List Int}
    (h : List.Chain' R (a :: l)) : List.Chain R a l := h

lemma recordFailures_cons_fresh (o : CircuitBreakerOptions) (t : Int)
    (rest : List Int) (s : CBState) (hopen : s.isOpen = false)
    (hcount : s.errorCount = 0) (hT1 : 1 < o.circuitBreakerCount) :
    recordFailures o (t :: rest) s =
      recordFailures o rest
        { errorCount := 1, lastResetTime := t, isOpen := false } := by
  have h1 : (incrementErrorCount o t s).1 =
      { errorCount := 1, lastResetTime := t, isOpen := false } := by
    rw [incrementErrorCount_fresh o t s hopen hcount]
    simp [decide_eq_false (not_le.mpr hT1)]
  simp [recordFailures, h1]

/-- C1: for a freshly-reset breaker with positive threshold T: (i) after any
N < T `recordFailure` calls whose consecutive gaps stay within the window,
`isEnabled()` still returns true; (ii) after exactly T such calls the
breaker is open with `errorCount = T` and its `lastResetTime` is the time of
the T-th failure; while the cooldown has not elapsed since then,
`isEnabled()` returns false and leaves the state unchanged; once the
cooldown has elapsed, the next single `isEnabled()` call returns true,
closes the breaker and resets `errorCount` to 0. -/
theorem C1_circuitBreaker_threshold_window_cooldown
    (o : CircuitBreakerOptions) (s : CBState)
    (hopen : s.isOpen = false) (hcount : s.errorCount = 0)
    (hT : 1 ≤ o.circuitBreakerCount) :
    (∀ ts : List Int,
      List.Chain' (fun a b => b - a ≤ o.circuitBreakerTime) ts →
      ts.length < o.circuitBreakerCount →
      ∀ now, (isEnabled o now (recordFailures o ts s)).1 = true) ∧
    (∀ ts : List Int,
      List.Chain' (fun a b => b - a ≤ o.circuitBreakerTime) ts →
      ts.length = o.circuitBreakerCount →
      (recordFailures o ts s).isOpen = true ∧
      (recordFailures o ts s).errorCount = o.circuitBreakerCount ∧
      (recordFailures o ts s).lastResetTime = lastTime s.lastResetTime ts ∧
      (∀ now, now - lastTime s.lastResetTime ts < o.circuitBreakerCooldown →
        isEnabled o now (recordFailures o ts s) =
          (false, recordFailures o ts s)) ∧
      (∀ now, o.circuitBreakerCooldown ≤ now - lastTime s.lastResetTime ts →
        isEnabled o now (recordFailures o ts s) =
          (true, { recordFailures o ts s with
                     isOpen := false, errorCount := 0 }))) := by
  constructor
  · intro ts hch hlen now
    rcases ts with _ | ⟨t, rest⟩
    · rw [show recordFailures o [] s = s from rfl, isEnabled_closed o now s hopen]
    · simp only [List.length_cons] at hlen
      have hT1 : 1 < o.circuitBreakerCount := by omega
      rw [recordFailures_cons_fresh o t rest s hopen hcount hT1]
      rw [recordFailures_no_trip o rest _ rfl
        (by simpa using chain'_cons_chain hch) (by simp; omega)]
      rw [isEnabled_closed _ _ _ rfl]
  · intro ts hch hlen
    rcases ts with _ | ⟨t, rest⟩
    · simp at hlen; omega
    · have hfin : recordFailures o (t :: rest) s =
          { errorCount := o.circuitBreakerCount,
            lastResetTime := lastTime s.lastResetTime (t :: rest),
            isOpen := true } := by
        rcases rest with _ | ⟨t2, rest'⟩
        · simp only [List.length_cons, List.length_nil] at hlen
          have hT1 : o.circuitBreakerCount = 1 := by omega
          have h1 : recordFailures o [t] s = (incrementErrorCount o t s).1 := rfl
          rw [h1, incrementErrorCount_fresh o t s hopen hcount, hT1]
          simp [lastTime]
        · simp only [List.length_cons] at hlen
          have hT1 : 1 < o.circuitBreakerCount := by omega
          rw [recordFailures_cons_fresh o t (t2 :: rest') s hopen hcount hT1]
          rw [recordFailures_trip o (t2 :: rest') _ rfl
            (by simpa using chain'_cons_chain hch) (by simp; omega) (by simp)]
          rfl
      refine ⟨by rw [hfin], by rw [hfin], by rw [hfin], ?_, ?_⟩
      · intro now hcool
        rw [hfin]
        exact isEnabled_open_hot o now _ rfl (by simpa using hcool)
      · intro now hcool
        rw [hfin]
        exact isEnabled_open_cool o now _ rfl (by simpa using hcool)

/-- Closed witness instantiating C1 at threshold 2, window 1000, cooldown
500: one failure keeps the breaker enabled; two failures at times 0 and 100
trip it, and at time 700 (cooldown elapsed) a single `isEnabled` call closes
it again with a reset count. -/
theorem C1_circuitBreaker_witness :
    (isEnabled ⟨2, 1000, 500⟩ 50
      (recordFailures ⟨2, 1000, 500⟩ [0] ⟨0, 0, false⟩)).1 = true ∧
    isEnabled ⟨2, 1000, 500⟩ 400
      (recordFailures ⟨2, 1000, 500⟩ [0, 100] ⟨0, 0, false⟩) =
      (false, recordFailures ⟨2, 1000, 500⟩ [0, 100] ⟨0, 0, false⟩) ∧
    isEnabled ⟨2, 1000, 500⟩ 700
      (recordFailures ⟨2, 1000, 500⟩ [0, 100] ⟨0, 0, false⟩) =
      (true, { recordFailures ⟨2, 1000, 500⟩ [0, 100] ⟨0, 0, false⟩ with
                 isOpen := false, errorCount := 0 }) := by
  have h := C1_circuitBreaker_threshold_window_cooldown
    ⟨2, 1000, 500⟩ ⟨0, 0, false⟩ rfl rfl (by decide)
  refine ⟨h.1 [0] (by simp) (by decide) 50, ?_, ?_⟩
  · exact ((h.2 [0, 100] (by simp [List.chain'_cons]) (by decide)).2.2.2.1) 400 (by decide)
  · exact ((h.2 [0, 100] (by simp [List.chain'_cons]) (by decide)).2.2.2.2) 700 (by decide)

/-- C4: a single `incrementErrorCount` call is a no-op when the breaker is
open; otherwise it resets the count to exactly 1 when more than the window
has passed since `lastResetTime`, increments it otherwise, always stamps
`lastResetTime := now`, opens the breaker exactly when the new count reaches
the threshold, and invokes the `onOpen` callback exactly when this call is
the one that trips the breaker. -/
theorem C4_incrementErrorCount_cases (o : CircuitBreakerOptions) (now : Int)
    (s : CBState) :
    (s.isOpen = true → incrementErrorCount o now s = (s, false)) ∧
    (s.isOpen = false →
      (incrementErrorCount o now s).1.lastResetTime = now ∧
      (o.circuitBreakerTime < now - s.lastResetTime →
        (incrementErrorCount o now s).1.errorCount = 1) ∧
      (now - s.lastResetTime ≤ o.circuitBreakerTime →
        (incrementErrorCount o now s).1.errorCount = s.errorCount + 1) ∧
      ((incrementErrorCount o now s).1.isOpen = true ↔
        o.circuitBreakerCount ≤ (incrementErrorCount o now s).1.errorCount)) ∧
    ((incrementErrorCount o now s).2 = true ↔
      (s.isOpen = false ∧ (incrementErrorCount o now s).1.isOpen = true)) := by
  refine ⟨?_, ?_, ?_⟩
  · intro h; simp [incrementErrorCount, h]
  · intro h
    by_cases hg : o.circuitBreakerTime < now - s.lastResetTime
    · rw [incrementErrorCount_stale o now s h hg]
      exact ⟨rfl, fun _ => rfl, fun hcon => absurd hg (not_lt.mpr hcon), by simp⟩
    · rw [incrementErrorCount_within o now s h (not_lt.mp hg)]
      exact ⟨rfl, fun hcon => absurd hcon hg, fun _ => rfl, by simp⟩
  · by_cases h : s.isOpen
    · simp [incrementErrorCount, h]
    · have h' : s.isOpen = false := by simpa using h
      by_cases hg : o.circuitBreakerTime < now - s.lastResetTime
      · rw [incrementErrorCount_stale o now s h' hg]; simp [h']
      · rw [incrementErrorCount_within o now s h' (not_lt.mp hg)]; simp [h']

/-- Closed witness instantiating C4: with threshold 3 and window 1000, a
stale-window failure (gap 2000) resets the count to 1, an in-window failure
increments it, and the no-op and callback clauses evaluate concretely. -/
theorem C4_incrementErrorCount_witness :
    (incrementErrorCount ⟨3, 1000, 500⟩ 2000 ⟨2, 0, false⟩).1.errorCount = 1 ∧
    (incrementErrorCount ⟨3, 1000, 500⟩ 800 ⟨2, 0, false⟩).1.errorCount = 3 ∧
    (incrementErrorCount ⟨3, 1000, 500⟩ 800 ⟨2, 0, false⟩).1.isOpen = true ∧
    (incrementErrorCount ⟨3, 1000, 500⟩ 800 ⟨2, 0, false⟩).2 = true ∧
    incrementErrorCount ⟨3, 1000, 500⟩ 900 ⟨3, 800, true⟩ =
      (⟨3, 800, true⟩, false) := by
  have h1 := C4_incrementErrorCount_cases ⟨3, 1000, 500⟩ 2000 ⟨2, 0, false⟩
  have h2 := C4_incrementErrorCount_cases ⟨3, 1000, 500⟩ 800 ⟨2, 0, false⟩
  have h3 := C4_incrementErrorCount_cases ⟨3, 1000, 500⟩ 900 ⟨3, 800, true⟩
  refine ⟨(h1.2.1 rfl).2.1 (by decide), (h2.2.1 rfl).2.2.1 (by decide), ?_, ?_, ?_⟩
  · exact ((h2.2.1 rfl).2.2.2).mpr (by rw [(h2.2.1 rfl).2.2.1 (by decide)])
  · exact h2.2.2.mpr ⟨rfl, ((h2.2.1 rfl).2.2.2).mpr
      (by rw [(h2.2.1 rfl).2.2.1 (by decide)])⟩
  · exact h3.1 rfl

/-! ### src/logger.ts — colors, JSON metadata and `formatLog` -/

-- ANSI codes from the `Colors` object that `formatLog` uses.
namespace Colors

def reset : Str := "\x1b[0m".toList

def bright : Str := "\x1b[1m".toList

def dim : Str := "\x1b[2m".toList

def black : Str := "\x1b[30m".toList

def red : Str := "\x1b[31m".toList

def green : Str := "\x1b[32m".toList

def yellow : Str := "\x1b[33m".toList

def blue : Str := "\x1b[34m".toList

def magenta : Str := "\x1b[35m".toList

def cyan : Str := "\x1b[36m".toList

def white : Str := "\x1b[37m".toList

def brightRed : Str := "\x1b[91m".toList

def brightGreen : Str := "\x1b[92m".toList

def brightYellow : Str := "\x1b[93m".toList

def brightBlue : Str := "\x1b[94m".toList

def brightMagenta : Str := "\x1b[95m".toList

def brightCyan : Str := "\x1b[96m".toList

def brightWhite : Str := "\x1b[97m".toList

end Colors

/-- The four log levels of `CustomLogger.logLevels`, in array order. -/
inductive Level where
  | debug
  | info
  | warn
  | error
deriving Repr, DecidableEq

/-- Index of a level in `logLevels = ['debug','info','warn','error']`. -/
def levelIndex : Level → Nat
  | .debug => 0
  | .info => 1
  | .warn => 2
  | .error => 3

/-- The level name as interpolated into the output (`${level}`). -/
def levelStr : Level → Str
  | .debug => "debug".toList
  | .info => "info".toList
  | .warn => "warn".toList
  | .error => "error".toList

/-- `DefaultLevelColors` object. -/
def defaultLevelColor : Level → Str
  | .debug => Colors.cyan
  | .info => Colors.green
  | .warn => Colors.yellow
  | .error => Colors.red

/-- The `colorMap` object literal inside `getColorCode`. -/
def colorMapTable : List (Str × Str) :=
  [(("black".toList), Colors.black),
   (("red".toList), Colors.red),
   (("green".toList), Colors.green),
   (("yellow".toList), Colors.yellow),
   (("blue".toList), Colors.blue),
   (("magenta".toList), Colors.magenta),
   (("cyan".toList), Colors.cyan),
   (("white".toList), Colors.white),
   (("brightRed".toList), Colors.brightRed),
   (("brightGreen".toList), Colors.brightGreen),
   (("brightYellow".toList), Colors.brightYellow),
   (("brightBlue".toList), Colors.brightBlue),
   (("brightMagenta".toList), Colors.brightMagenta),
   (("brightCyan".toList), Colors.brightCyan),
   (("brightWhite".toList), Colors.brightWhite)]

/-- `getColorCode`: `colorMap[colorName] || ''`. -/
def getColorCode (colorName : Str) : Str :=
  match colorMapTable.find? (fun e => decide (e.1 = colorName)) with
  | some e => e.2
  | none => []

-- JS values that can appear as `metadata`.  `JSON.stringify` is a platform
-- builtin; the single aspect of it the claims depend on is that it throws
-- on a circular object graph, which a finite inductive cannot represent
-- directly, so a `circular` constructor marks a value whose serialization
-- throws.
mutual
inductive JsValue where
  | null
  | bool (b : Bool)
  | num (n : Int)
  | str (s : Str)
  | obj (fields : JsFields)
  | circular
inductive JsFields where
  | nil
  | cons (key : Str) (value : JsValue) (rest : JsFields)
end

/-- Minimal JSON string escaping (quote and backslash; control-character
escaping of the platform serializer is not modelled). -/
def jsonEscape (s : Str) : Str :=
  (s.map (fun c => if c = '"' ∨ c = '\\' then ['\\', c] else [c])).flatten

-- Model of `JSON.stringify` on a value: `none` models the thrown
-- `TypeError` on a circular structure.
mutual
def stringifyVal : JsValue → Option Str
  | .null => some ("null".toList)
  | .bool b => some ((if b then "true" else "false").toList)
  | .num n => some ((toString n).toList)
  | .str s => some ('"' :: (jsonEscape s ++ ['"']))
  | .obj fs =>
      match stringifyFields fs with
      | none => none
      | some inner => some ('\x7b' :: (inner.drop 1 ++ ['\x7d']))
  | .circular => none
def stringifyFields : JsFields → Option Str
  | .nil => some []
  | .cons k v rest =>
      match stringifyVal v, stringifyFields rest with
      | some sv, some sr =>
          some (',' :: '"' :: (jsonEscape k ++ '"' :: ':' :: sv ++ sr))
      | _, _ => none
end

/-- The `metadata` expression of `formatLog`:
`opts.metadata ? JSON.stringify(opts.metadata) : '{}'`. -/
def jsonStringifyMeta : Option JsValue → Option Str
  | none => some ("\x7b\x7d".toList)
  | some v => stringifyVal v

/-- The `Error` argument: `stack` is optional on JS `Error`. -/
structure ErrorObj where
  message : Str := []
  stack : Option Str := none

/-- `LogOptions` interface. -/
structure LogOptions where
  functionName : Str
  metadata : Option JsValue := none
  error : Option ErrorObj := none
  customColor : Option Str := none
  logColor : Option Str := none
  fullLogColor : Option Str := none

/-- JS truthiness of an optional string (`undefined` and `''` are falsy). -/
def jsTruthy : Option Str → Bool
  | none => false
  | some s => !s.isEmpty

/-- Ambient inputs that `formatLog` reads from the platform: the value held
by `asyncLocalStorage` (with its `traceId` key), the `uuidv4()` draw it
would make, and the `new Date().toISOString()` reading. -/
structure FmtEnv where
  ambientTraceId : Option Str := none
  freshId : Str := []
  iso : Str := []

/-- The `traceId` expression of `formatLog`:
`asyncLocalStorage.getStore()?.get('traceId') || uuidv4()` (JS `||`: an
absent store/key or an empty ambient id falls back to the fresh uuid). -/
def traceIdOf (env : FmtEnv) : Str :=
  match env.ambientTraceId with
  | some t => if t.isEmpty then env.freshId else t
  | none => env.freshId

/-- The `levelColor` selection: `opts.customColor`, then
`customLevelColors[level]`, then the default level color. -/
def levelColorOf (level : Level) (opts : LogOptions)
    (customLevelColors : Level → Option Str) : Str :=
  if jsTruthy opts.customColor then getColorCode (opts.customColor.getD [])
  else if jsTruthy (customLevelColors level) then
    getColorCode ((customLevelColors level).getD [])
  else defaultLevelColor level

/-- `fullLogColor`: `opts.fullLogColor ? getColorCode(...) : ''`. -/
def fullLogColorOf (opts : LogOptions) : Str :=
  if jsTruthy opts.fullLogColor then getColorCode (opts.fullLogColor.getD [])
  else []

/-- `logColor`: `opts.logColor ? getColorCode(...) : ''`. -/
def logColorOf (opts : LogOptions) : Str :=
  if jsTruthy opts.logColor then getColorCode (opts.logColor.getD []) else []

/-- `dimColor`: `useColors ? Colors.dim : ''`. -/
def dimColorOf (useColors : Bool) : Str :=
  if useColors then Colors.dim else []

/-- `brightColor`: `useColors ? Colors.bright : ''`. -/
def brightColorOf (useColors : Bool) : Str :=
  if useColors then Colors.bright else []

/-- `errorColor`: `useColors ? Colors.red : ''`. -/
def errColorOf (useColors : Bool) : Str :=
  if useColors then Colors.red else []

/-- The segments appended for `opts.error?.stack` (empty when no error or
no truthy stack). -/
def errTailOf (opts : LogOptions) (useColors : Bool) : List Str :=
  match opts.error with
  | some e =>
      match e.stack with
      | some st =>
          if st.isEmpty then []
          else
            [("\n".toList), fullLogColorOf opts, errColorOf useColors,
             ("Error Stack: ".toList), st, Colors.reset]
      | none => []
  | none => []

/-- The segments of the template string built by `formatLog`, in order,
given the already-serialized metadata string. -/
def formatSegs (level : Level) (msg : Str) (opts : LogOptions)
    (useColors : Bool) (customLevelColors : Level → Option Str)
    (env : FmtEnv) (metadataStr : Str) : List Str :=
  [fullLogColorOf opts, brightColorOf useColors, env.iso, (":".toList),
   Colors.reset, (" ".toList), levelColorOf level opts customLevelColors,
   levelStr level, Colors.reset, (": ".toList), fullLogColorOf opts,
   logColorOf opts, msg, Colors.reset, ("\n".toList), fullLogColorOf opts,
   dimColorOf useColors, ("Trace Id: ".toList), traceIdOf env, Colors.reset,
   ("\n".toList), fullLogColorOf opts, dimColorOf useColors,
   ("Function Name: ".toList), opts.functionName, Colors.reset,
   ("\n".toList), fullLogColorOf opts, dimColorOf useColors,
   ("Metadata: ".toList), metadataStr, Colors.reset] ++
  errTailOf opts useColors

/-- `formatLog`: serializes the metadata (propagating the platform throw as
`none`) and concatenates the template segments. -/
def formatLog (level : Level) (msg : Str) (opts : LogOptions)
    (useColors : Bool) (customLevelColors : Level → Option Str)
    (env : FmtEnv) : Option Str :=
  match jsonStringifyMeta opts.metadata with
  | none => none
  | some m =>
      some (List.flatten
        (formatSegs level msg opts useColors customLevelColors env m))

/-! ### `removeColors` — model of `str.replace(/\x1b\[[0-9;]*m/g, '')` -/

/-- After having seen `ESC [`, consume `[0-9;]*` then `m`; return the
remainder on a match.  Greedy matching without backtracking is equivalent to
the regex here because the character class excludes `m`. -/
def stripSeq : List Char → Option (List Char)
  | [] => none
  | c :: rest =>
      if c = 'm' then some rest
      else if c.isDigit ∨ c = ';' then stripSeq rest
      else none

/-- Does the list begin with a full `ESC [ [0-9;]* m` escape sequence?
Returns the remainder after the sequence when it does. -/
def matchEscapePrefix : List Char → Option (List Char)
  | a :: b :: rest => if a = '\x1b' ∧ b = '[' then stripSeq rest else none
  | _ => none

/-- One left-to-right pass: drop a leading escape sequence when present,
otherwise keep the head character; `fuel` bounds the recursion (it is
always called with `fuel ≥ length`, where the first equation is never
reached). -/
def removeColorsAux : Nat → List Char → List Char
  | 0, l => l
  | _ + 1, [] => []
  | fuel + 1, a :: rest =>
      match matchEscapePrefix (a :: rest) with
      | some rem => removeColorsAux fuel rem
      | none => a :: removeColorsAux fuel rest

/-- `removeColors`: strips every ANSI color escape sequence, scanning left
to right exactly as the JS global regex replace does. -/
def removeColors (l : Str) : Str := removeColorsAux l.length l

/-- Whether the list contains an `ESC [ [0-9;]* m` escape sequence anywhere
(the JS regex test for the same pattern). -/
def hasAnsiEscape : List Char → Bool
  | [] => false
  | a :: rest => (matchEscapePrefix (a :: rest)).isSome || hasAnsiEscape rest

lemma stripSeq_length_lt : ∀ (l rem : List Char),
    stripSeq l = some rem → rem.length < l.length := by
  intro l
  induction l with
  | nil => intro rem h; simp [stripSeq] at h
  | cons c rest ih =>
      intro rem h
      by_cases hm : c = 'm'
      · simp [stripSeq, hm] at h
        subst h
        simp
      · by_cases hd : c.isDigit ∨ c = ';'
        · simp [stripSeq, hm, hd] at h
          exact Nat.lt_trans (ih rem h) (by simp)
        · simp [stripSeq, hm, hd] at h

lemma matchEscapePrefix_length (l rem : List Char)
    (h : matchEscapePrefix l = some rem) : rem.length + 3 ≤ l.length := by
  match l with
  | [] => simp [matchEscapePrefix] at h
  | [a] => simp [matchEscapePrefix] at h
  | a :: b :: rest =>
      by_cases hc : a = '\x1b' ∧ b = '['
      · simp [matchEscapePrefix, hc] at h
        have := stripSeq_length_lt rest rem h
        simp
        omega
      · simp [matchEscapePrefix, hc] at h

lemma removeColorsAux_step_some (f : Nat) (a : Char) (rest rem : List Char)
    (h : matchEscapePrefix (a :: rest) = some rem) :
    removeColorsAux (f + 1) (a :: rest) = removeColorsAux f rem := by
  rw [show removeColorsAux (f + 1) (a :: rest) =
    (match matchEscapePrefix (a :: rest) with
     | some r => removeColorsAux f r
     | none => a :: removeColorsAux f rest) from rfl, h]

lemma removeColorsAux_step_none (f : Nat) (a : Char) (rest : List Char)
    (h : matchEscapePrefix (a :: rest) = none) :
    removeColorsAux (f + 1) (a :: rest) = a :: removeColorsAux f rest := by
  rw [show removeColorsAux (f + 1) (a :: rest) =
    (match matchEscapePrefix (a :: rest) with
     | some r => removeColorsAux f r
     | none => a :: removeColorsAux f rest) from rfl, h]

lemma removeColorsAux_fuel : ∀ (f : Nat) (l : List Char), l.length ≤ f →
    removeColorsAux f l = removeColorsAux l.length l := by
  intro f
  induction f using Nat.strong_induction_on with
  | _ f ih =>
      intro l hl
      match f, l with
      | 0, l =>
          have : l = [] := List.length_eq_zero.mp (Nat.le_zero.mp hl)
          subst this; rfl
      | f + 1, [] => rfl
      | f + 1, a :: rest =>
          simp only [List.length_cons] at hl
          cases hm : matchEscapePrefix (a :: rest) with
          | some rem =>
              have hlen := matchEscapePrefix_length _ _ hm
              simp only [List.length_cons] at hlen
              rw [removeColorsAux_step_some f a rest rem hm,
                show (a :: rest).length = rest.length + 1 from by simp,
                removeColorsAux_step_some rest.length a rest rem hm,
                ih f (by omega) rem (by omega),
                ih rest.length (by omega) rem (by omega)]
          | none =>
              rw [removeColorsAux_step_none f a rest hm,
                show (a :: rest).length = rest.length + 1 from by simp,
                removeColorsAux_step_none rest.length a rest hm,
                ih f (by omega) rest (by omega),
                ih rest.length (by omega) rest (by omega)]

lemma removeColors_match (l rem : List Char)
    (h : matchEscapePrefix l = some rem) :
    removeColors l = removeColors rem := by
  have hlen := matchEscapePrefix_length _ _ h
  match l with
  | a :: b :: rest =>
      show removeColorsAux ((a :: b :: rest).length) (a :: b :: rest) = _
      rw [show (a :: b :: rest).length = (b :: rest).length + 1 from by simp,
        removeColorsAux_step_some (b :: rest).length a (b :: rest) rem h]
      simp only [List.length_cons] at hlen
      rw [removeColorsAux_fuel (b :: rest).length rem (by simp; omega)]
      rfl

lemma removeColors_cons_none (a : Char) (t : List Char)
    (h : matchEscapePrefix (a :: t) = none) :
    removeColors (a :: t) = a :: removeColors t := by
  show removeColorsAux ((a :: t).length) (a :: t) = _
  rw [show (a :: t).length = t.length + 1 from by simp,
    removeColorsAux_step_none t.length a t h]
  rfl

lemma matchEscapePrefix_ne_esc (a : Char) (t : List Char) (h : a ≠ '\x1b') :
    matchEscapePrefix (a :: t) = none := by
  match t with
  | [] => rfl
  | b :: rest => simp [matchEscapePrefix, h]

lemma removeColors_escFree_append : ∀ (s r : List Char),
    (∀ c ∈ s, c ≠ '\x1b') → removeColors (s ++ r) = s ++ removeColors r := by
  intro s
  induction s with
  | nil => intro r _; rfl
  | cons a s' ih =>
      intro r h
      have ha : a ≠ '\x1b' := h a (by simp)
      rw [List.cons_append,
        removeColors_cons_none a (s' ++ r) (matchEscapePrefix_ne_esc a _ ha),
        ih r (fun c hc => h c (by simp [hc])), List.cons_append]

lemma stripSeq_append_empty : ∀ (l : List Char), stripSeq l = some [] →
    ∀ r, stripSeq (l ++ r) = some r := by
  intro l
  induction l with
  | nil => intro h; simp [stripSeq] at h
  | cons c rest ih =>
      intro h r
      by_cases hm : c = 'm'
      · simp [stripSeq, hm] at h
        subst h
        simp [stripSeq, hm]
      · by_cases hd : c.isDigit ∨ c = ';'
        · simp [stripSeq, hm, hd] at h ⊢
          exact ih h r
        · simp [stripSeq, hm, hd] at h

lemma matchEscapePrefix_append_full (s r : List Char)
    (h : matchEscapePrefix s = some []) :
    matchEscapePrefix (s ++ r) = some r := by
  match s with
  | [] => simp [matchEscapePrefix] at h
  | [a] => simp [matchEscapePrefix] at h
  | a :: b :: rest =>
      by_cases hc : a = '\x1b' ∧ b = '['
      · simp only [matchEscapePrefix, hc, and_self, if_true] at h
        simp only [List.cons_append, matchEscapePrefix, hc, and_self, if_true]
        exact stripSeq_append_empty rest h r
      · simp [matchEscapePrefix, hc] at h

lemma removeColors_code_append (s r : List Char)
    (h : matchEscapePrefix s = some []) :
    removeColors (s ++ r) = removeColors r :=
  removeColors_match (s ++ r) r (matchEscapePrefix_append_full s r h)

/-- A template segment is harmless for color-stripping when it either
contains no ESC character at all or is exactly one full color escape. -/
def SegOk (s : Str) : Prop :=
  (∀ c ∈ s, c ≠ '\x1b') ∨ matchEscapePrefix s = some []

lemma removeColors_flatten_escFree : ∀ (segs : List Str),
    (∀ s ∈ segs, SegOk s) →
    ∀ c ∈ removeColors segs.flatten, c ≠ '\x1b' := by
  intro segs
  induction segs with
  | nil => intro _ c hc; simp [removeColors, removeColorsAux] at hc
  | cons s rest ih =>
      intro h c hc
      rw [List.flatten_cons] at hc
      rcases h s (by simp) with hfree | hcode
      · rw [removeColors_escFree_append s _ hfree] at hc
        rcases List.mem_append.mp hc with h1 | h2
        · exact hfree c h1
        · exact ih (fun t ht => h t (by simp [ht])) c h2
      · rw [removeColors_code_append s _ hcode] at hc
        exact ih (fun t ht => h t (by simp [ht])) c hc

lemma hasAnsiEscape_append_of (A B : List Char) (h : hasAnsiEscape B = true) :
    hasAnsiEscape (A ++ B) = true := by
  induction A with
  | nil => simpa using h
  | cons a A' ih => simp [hasAnsiEscape, ih]

lemma hasAnsiEscape_code_prefix (s B : List Char)
    (h : matchEscapePrefix s = some []) :
    hasAnsiEscape (s ++ B) = true := by
  have hfull := matchEscapePrefix_append_full s B h
  match s with
  | [] => simp [matchEscapePrefix] at h
  | a :: t =>
      simp only [List.cons_append] at hfull
      simp [hasAnsiEscape, hfull]

lemma hasAnsiEscape_false_of_escFree (l : List Char)
    (h : ∀ c ∈ l, c ≠ '\x1b') : hasAnsiEscape l = false := by
  induction l with
  | nil => rfl
  | cons a rest ih =>
      have ha : a ≠ '\x1b' := h a (by simp)
      simp [hasAnsiEscape, matchEscapePrefix_ne_esc a rest ha,
        ih (fun c hc => h c (by simp [hc]))]

lemma segOk_getColorCode (c : Str) : SegOk (getColorCode c) := by
  have htab : ∀ e ∈ colorMapTable, matchEscapePrefix e.2 = some [] := by decide
  rw [getColorCode]
  cases hfind : colorMapTable.find? (fun e => decide (e.1 = c)) with
  | none => exact Or.inl (by intro x hx; simp at hx)
  | some e => exact Or.inr (htab e (List.mem_of_find?_eq_some hfind))

lemma segOk_defaultLevelColor (lv : Level) : SegOk (defaultLevelColor lv) := by
  cases lv <;> exact Or.inr (by decide)

lemma segOk_ite (b : Prop) [Decidable b] (s : Str) (h : SegOk s) :
    SegOk (if b then s else []) := by
  split
  · exact h
  · exact Or.inl (by simp)

lemma segOk_levelColorOf (lv : Level) (opts : LogOptions)
    (clc : Level → Option Str) : SegOk (levelColorOf lv opts clc) := by
  rw [levelColorOf]
  split_ifs
  · exact segOk_getColorCode _
  · exact segOk_getColorCode _
  · exact segOk_defaultLevelColor lv

lemma segOk_fullLogColorOf (opts : LogOptions) : SegOk (fullLogColorOf opts) := by
  rw [fullLogColorOf]
  split_ifs
  · exact segOk_getColorCode _
  · exact Or.inl (by simp)

lemma segOk_logColorOf (opts : LogOptions) : SegOk (logColorOf opts) := by
  rw [logColorOf]
  split_ifs
  · exact segOk_getColorCode _
  · exact Or.inl (by simp)

lemma segOk_dimColorOf (b : Bool) : SegOk (dimColorOf b) := by
  cases b
  · exact Or.inl (by simp [dimColorOf])
  · exact Or.inr (by decide)

lemma segOk_brightColorOf (b : Bool) : SegOk (brightColorOf b) := by
  cases b
  · exact Or.inl (by simp [brightColorOf])
  · exact Or.inr (by decide)

lemma segOk_errColorOf (b : Bool) : SegOk (errColorOf b) := by
  cases b
  · exact Or.inl (by simp [errColorOf])
  · exact Or.inr (by decide)

lemma segOk_levelStr (lv : Level) : SegOk (levelStr lv) := by
  cases lv <;> exact Or.inl (by decide)

lemma segOk_traceIdOf (env : FmtEnv)
    (hamb : ∀ t, env.ambientTraceId = some t → ∀ c ∈ t, c ≠ '\x1b')
    (hfresh : ∀ c ∈ env.freshId, c ≠ '\x1b') : SegOk (traceIdOf env) := by
  left
  intro c hc
  cases henv : env.ambientTraceId with
  | none => simp only [traceIdOf, henv] at hc; exact hfresh c hc
  | some t =>
      simp only [traceIdOf, henv] at hc
      by_cases hemp : t.isEmpty = true
      · rw [if_pos hemp] at hc; exact hfresh c hc
      · rw [if_neg hemp] at hc; exact hamb t henv c hc

lemma segOk_formatSegs (level : Level) (msg : Str) (opts : LogOptions)
    (useColors : Bool) (clc : Level → Option Str) (env : FmtEnv) (m : Str)
    (hmsg : ∀ c ∈ msg, c ≠ '\x1b')
    (hfn : ∀ c ∈ opts.functionName, c ≠ '\x1b')
    (hiso : ∀ c ∈ env.iso, c ≠ '\x1b')
    (hfresh : ∀ c ∈ env.freshId, c ≠ '\x1b')
    (hamb : ∀ t, env.ambientTraceId = some t → ∀ c ∈ t, c ≠ '\x1b')
    (hm : ∀ c ∈ m, c ≠ '\x1b')
    (hstack : ∀ e st, opts.error = some e → e.stack = some st →
      ∀ c ∈ st, c ≠ '\x1b') :
    ∀ s ∈ formatSegs level msg opts useColors clc env m, SegOk s := by
  intro s hs
  rw [formatSegs] at hs
  rcases List.mem_append.mp hs with h1 | h2
  · simp only [List.mem_cons, List.not_mem_nil, or_false] at h1
    rcases h1 with rfl|rfl|rfl|rfl|rfl|rfl|rfl|rfl|rfl|rfl|rfl|rfl|rfl|rfl|
      rfl|rfl|rfl|rfl|rfl|rfl|rfl|rfl|rfl|rfl|rfl|rfl|rfl|rfl|rfl|rfl|rfl|rfl
    all_goals first
      | exact segOk_fullLogColorOf opts
      | exact segOk_brightColorOf useColors
      | exact segOk_levelColorOf level opts clc
      | exact segOk_logColorOf opts
      | exact segOk_dimColorOf useColors
      | exact segOk_levelStr level
      | exact segOk_traceIdOf env hamb hfresh
      | exact Or.inr (by decide)
      | exact Or.inl hmsg
      | exact Or.inl hfn
      | exact Or.inl hiso
      | exact Or.inl hm
      | exact Or.inl (by decide)
  · cases herr : opts.error with
    | none => simp only [errTailOf, herr] at h2; simp at h2
    | some e =>
        cases hstk : e.stack with
        | none => simp only [errTailOf, herr, hstk] at h2; simp at h2
        | some st =>
            simp only [errTailOf, herr, hstk] at h2
            by_cases hemp : st.isEmpty = true
            · rw [if_pos hemp] at h2; simp at h2
            · rw [if_neg hemp] at h2
              simp only [List.mem_cons, List.not_mem_nil, or_false] at h2
              rcases h2 with rfl|rfl|rfl|rfl|rfl|rfl
              all_goals first
                | exact segOk_fullLogColorOf opts
                | exact segOk_errColorOf useColors
                | exact Or.inr (by decide)
                | exact Or.inl (hstack e _ herr hstk)
                | exact Or.inl (by decide)

/-- C10 (amended): with the color flag false, `formatLog` output still
contains ANSI escape sequences (the reset code is interpolated
unconditionally); and provided the event's own textual fields contain no
raw ESC characters, the string the logger hands to the file sink —
`removeColors` of the flag-false output — contains no ESC character and
hence no ANSI escape sequence. -/
theorem C10_formatLog_colors_file_strip
    (level : Level) (msg : Str) (opts : LogOptions)
    (clc : Level → Option Str) (env : FmtEnv) (out : Str)
    (hout : formatLog level msg opts false clc env = some out)
    (hmsg : ∀ c ∈ msg, c ≠ '\x1b')
    (hfn : ∀ c ∈ opts.functionName, c ≠ '\x1b')
    (hiso : ∀ c ∈ env.iso, c ≠ '\x1b')
    (hfresh : ∀ c ∈ env.freshId, c ≠ '\x1b')
    (hamb : ∀ t, env.ambientTraceId = some t → ∀ c ∈ t, c ≠ '\x1b')
    (hmeta : ∀ m, jsonStringifyMeta opts.metadata = some m →
      ∀ c ∈ m, c ≠ '\x1b')
    (hstack : ∀ e st, opts.error = some e → e.stack = some st →
      ∀ c ∈ st, c ≠ '\x1b') :
    hasAnsiEscape out = true ∧
    (∀ c ∈ removeColors out, c ≠ '\x1b') ∧
    hasAnsiEscape (removeColors out) = false := by
  cases hjs : jsonStringifyMeta opts.metadata with
  | none => rw [formatLog, hjs] at hout; exact absurd hout (by simp)
  | some m =>
      rw [formatLog, hjs] at hout
      have hout' : out = List.flatten
          (formatSegs level msg opts false clc env m) := by
        simpa using hout.symm
      subst hout'
      have hfree : ∀ c ∈ removeColors
          (List.flatten (formatSegs level msg opts false clc env m)),
          c ≠ '\x1b' :=
        removeColors_flatten_escFree _
          (segOk_formatSegs level msg opts false clc env m hmsg hfn hiso
            hfresh hamb (hmeta m hjs) hstack)
      refine ⟨?_, hfree, hasAnsiEscape_false_of_escFree _ hfree⟩
      rw [formatSegs]
      simp only [List.cons_append, List.nil_append, List.flatten_cons]
      apply hasAnsiEscape_append_of
      apply hasAnsiEscape_append_of
      apply hasAnsiEscape_append_of
      apply hasAnsiEscape_append_of
      exact hasAnsiEscape_code_prefix _ _ (by decide)

/-- C10 counterexample: the claim that the string written to the file sink
never contains ANSI escape sequences is false as stated.  A `functionName`
containing the fragments of an escape around a complete reset code
(`"\x1b[3" ++ "\x1b[0m" ++ "1m"`) recombines under `removeColors` into the
escape `"\x1b[31m"`, so the file string does contain an escape sequence. -/
theorem C10_fileString_escape_counterexample :
    (formatLog .info ("hi".toList)
        { functionName := ("\x1b[3\x1b[0m1m".toList) } false (fun _ => none)
        { ambientTraceId := some ("abc".toList), freshId := ("u".toList),
          iso := ("2026-10-11".toList) }).map
      (fun out => hasAnsiEscape (removeColors out)) = some true := by
  decide

/-- Closed witness instantiating C10 at a concrete benign event: the
flag-false console string still contains escapes, and the derived file
string contains none. -/
theorem C10_formatLog_colors_file_strip_witness :
    hasAnsiEscape ((formatLog .info ("hi".toList)
      { functionName := ("fn".toList) } false (fun _ => none)
      { ambientTraceId := none, freshId := ("u1".toList),
        iso := ("2026".toList) }).getD []) = true ∧
    hasAnsiEscape (removeColors ((formatLog .info ("hi".toList)
      { functionName := ("fn".toList) } false (fun _ => none)
      { ambientTraceId := none, freshId := ("u1".toList),
        iso := ("2026".toList) }).getD [])) = false := by
  have h := C10_formatLog_colors_file_strip .info ("hi".toList)
    { functionName := ("fn".toList) } (fun _ => none)
    { ambientTraceId := none, freshId := ("u1".toList),
      iso := ("2026".toList) }
    ((formatLog .info ("hi".toList) { functionName := ("fn".toList) } false
      (fun _ => none)
      { ambientTraceId := none, freshId := ("u1".toList),
        iso := ("2026".toList) }).getD [])
    (by decide) (by decide) (by decide) (by decide) (by decide)
    (by intro t ht; simp at ht)
    (by intro m hm; simp only [jsonStringifyMeta] at hm;
        cases hm; decide)
    (by intro e st he _; simp at he)
  exact ⟨h.1, h.2.2⟩

/-- `pat` occurs contiguously somewhere in `l`. -/
def containsSeg (pat l : Str) : Prop := ∃ x y, l = x ++ (pat ++ y)

lemma containsSeg_cons (pat s l : Str) (h : containsSeg pat l) :
    containsSeg pat (s ++ l) := by
  obtain ⟨x, y, rfl⟩ := h
  exact ⟨s ++ x, y, by simp⟩

lemma containsSeg_cons_char (pat : Str) (a : Char) (l : Str)
    (h : containsSeg pat l) : containsSeg pat (a :: l) := by
  obtain ⟨x, y, rfl⟩ := h
  exact ⟨a :: x, y, by simp⟩

lemma containsSeg_flatten_adjacent (pre : List Str) (s1 s2 : Str)
    (post : List Str) :
    containsSeg (s1 ++ s2) (List.flatten (pre ++ s1 :: s2 :: post)) := by
  induction pre with
  | nil => exact ⟨[], List.flatten post, by simp⟩
  | cons p pre' ih =>
      simpa only [List.cons_append, List.flatten_cons] using
        containsSeg_cons _ p _ ih

lemma traceIdOf_some (env : FmtEnv) (t : Str)
    (h : env.ambientTraceId = some t) (ht : t ≠ []) : traceIdOf env = t := by
  simp [traceIdOf, h, List.isEmpty_iff, ht]

lemma traceIdOf_none (env : FmtEnv) (h : env.ambientTraceId = none) :
    traceIdOf env = env.freshId := by
  simp [traceIdOf, h]

/-- C8: every successfully formatted record carries a `Trace Id:` line:
inside an active trace scope with (nonempty) ambient identifier `t`, the
output contains `Trace Id: t`; outside any scope, the freshly generated
`uuidv4()` identifier is used instead, so the line is never omitted. -/
theorem C8_formatLog_trace_id_line (level : Level) (msg : Str)
    (opts : LogOptions) (useColors : Bool) (clc : Level → Option Str)
    (env : FmtEnv) (out : Str)
    (hout : formatLog level msg opts useColors clc env = some out) :
    (∀ t, env.ambientTraceId = some t → t ≠ [] →
      containsSeg (("Trace Id: ".toList) ++ t) out) ∧
    (env.ambientTraceId = none →
      containsSeg (("Trace Id: ".toList) ++ env.freshId) out) := by
  cases hjs : jsonStringifyMeta opts.metadata with
  | none => rw [formatLog, hjs] at hout; exact absurd hout (by simp)
  | some m =>
      rw [formatLog, hjs] at hout
      have hout' : out = List.flatten
          (formatSegs level msg opts useColors clc env m) := by
        simpa using hout.symm
      subst hout'
      have key : containsSeg (("Trace Id: ".toList) ++ traceIdOf env)
          (List.flatten (formatSegs level msg opts useColors clc env m)) := by
        rw [formatSegs]
        exact containsSeg_flatten_adjacent
          [fullLogColorOf opts, brightColorOf useColors, env.iso,
           (":".toList), Colors.reset, (" ".toList),
           levelColorOf level opts clc, levelStr level, Colors.reset,
           (": ".toList), fullLogColorOf opts, logColorOf opts, msg,
           Colors.reset, ("\n".toList), fullLogColorOf opts,
           dimColorOf useColors] ("Trace Id: ".toList) (traceIdOf env)
          ([Colors.reset, ("\n".toList), fullLogColorOf opts,
            dimColorOf useColors, ("Function Name: ".toList),
            opts.functionName, Colors.reset, ("\n".toList),
            fullLogColorOf opts, dimColorOf useColors,
            ("Metadata: ".toList), m, Colors.reset] ++
           errTailOf opts useColors)
      constructor
      · intro t h ht
        rw [← traceIdOf_some env t h ht]
        exact key
      · intro h
        rw [← traceIdOf_none env h]
        exact key

/-- Closed witness instantiating C8 both inside a scope (ambient id `abc`)
and outside any scope (fresh id `u1`). -/
theorem C8_formatLog_trace_id_witness :
    containsSeg (("Trace Id: ".toList) ++ ("abc".toList))
      ((formatLog .info ("m".toList) { functionName := ("f".toList) } true
        (fun _ => none)
        { ambientTraceId := some ("abc".toList), freshId := ("u".toList),
          iso := ("T".toList) }).getD []) ∧
    containsSeg (("Trace Id: ".toList) ++ ("u1".toList))
      ((formatLog .info ("m".toList) { functionName := ("f".toList) } true
        (fun _ => none)
        { ambientTraceId := none, freshId := ("u1".toList),
          iso := ("T".toList) }).getD []) := by
  constructor
  · exact (C8_formatLog_trace_id_line .info ("m".toList)
      { functionName := ("f".toList) } true (fun _ => none)
      { ambientTraceId := some ("abc".toList), freshId := ("u".toList),
        iso := ("T".toList) } _ (by decide)).1 ("abc".toList) rfl (by decide)
  · exact (C8_formatLog_trace_id_line .info ("m".toList)
      { functionName := ("f".toList) } true (fun _ => none)
      { ambientTraceId := none, freshId := ("u1".toList),
        iso := ("T".toList) } _ (by decide)).2 rfl

/-- C9 (amended): `formatLog` is deterministic in its full input set, which
— beyond level, message, options, color flag and custom level colors —
includes the clock reading; moreover, inside an active scope with a
nonempty ambient identifier, the output does not depend on the `uuidv4()`
draw. -/
theorem C9_formatLog_deterministic_amended (level : Level) (msg : Str)
    (opts : LogOptions) (useColors : Bool) (clc : Level → Option Str)
    (t : Str) (ht : t ≠ []) (iso fresh1 fresh2 : Str) :
    formatLog level msg opts useColors clc
      { ambientTraceId := some t, freshId := fresh1, iso := iso } =
    formatLog level msg opts useColors clc
      { ambientTraceId := some t, freshId := fresh2, iso := iso } := by
  cases hjs : jsonStringifyMeta opts.metadata with
  | none => rw [formatLog, formatLog, hjs]
  | some m =>
      rw [formatLog, formatLog, hjs]
      have h1 : traceIdOf
          { ambientTraceId := some t, freshId := fresh1, iso := iso } = t :=
        traceIdOf_some _ t rfl ht
      have h2 : traceIdOf
          { ambientTraceId := some t, freshId := fresh2, iso := iso } = t :=
        traceIdOf_some _ t rfl ht
      simp [formatSegs, h1, h2]

/-- Closed witness instantiating amended C9: with ambient id `abc`, two
different uuid draws give the identical output. -/
theorem C9_formatLog_deterministic_witness :
    formatLog .warn ("m".toList) { functionName := ("f".toList) } true
      (fun _ => none)
      { ambientTraceId := some ("abc".toList), freshId := ("u1".toList),
        iso := ("T".toList) } =
    formatLog .warn ("m".toList) { functionName := ("f".toList) } true
      (fun _ => none)
      { ambientTraceId := some ("abc".toList), freshId := ("u2".toList),
        iso := ("T".toList) } :=
  C9_formatLog_deterministic_amended .warn ("m".toList)
    { functionName := ("f".toList) } true (fun _ => none) ("abc".toList)
    (by decide) ("T".toList) ("u1".toList) ("u2".toList)

/-- C9 counterexample: two `formatLog` invocations with identical level,
message, options (including the correlation context), color flag and custom
level colors, but made at different clock instants, produce different
output strings — the formatter output depends on the timestamp, which the
claim omits from its input list. -/
theorem C9_formatLog_clock_counterexample :
    formatLog .info ("m".toList) { functionName := ("f".toList) } true
      (fun _ => none)
      { ambientTraceId := some ("abc".toList), freshId := ("u".toList),
        iso := ("2026-01-01T00:00:00.000Z".toList) } ≠
    formatLog .info ("m".toList) { functionName := ("f".toList) } true
      (fun _ => none)
      { ambientTraceId := some ("abc".toList), freshId := ("u".toList),
        iso := ("2026-01-01T00:00:00.001Z".toList) } := by
  decide

/-! ### src/logger.ts — `CustomLogger.log` orchestration -/

/-- Construction-time configuration of `CustomLogger` after defaults:
`currentLogLevelIndex` comes from `config.logLevel || 'info'`,
`useColors = config.colors !== false`, `customLevelColors =
config.customColors || {}`, and a file transport exists iff
`mode === 'pro' && filePath`. -/
structure LoggerConfig where
  logLevel : Level := .info
  hasFileTransport : Bool := false
  useColors : Bool := true
  customLevelColors : Level → Option Str := fun _ => none

/-- `CustomLogger.shouldLog`: `logLevels.indexOf(level) >=
currentLogLevelIndex`. -/
def shouldLog (cfg : LoggerConfig) (level : Level) : Bool :=
  decide (levelIndex cfg.logLevel ≤ levelIndex level)

/-- Observable side effects of one `log` call, in program order.
`format` marks a `formatLog` invocation; `fileWriteFail` marks a file-sink
write whose internal try/catch swallowed an error. -/
inductive LogAction where
  | format
  | consoleWrite (s : Str)
  | fileWrite (s : Str)
  | fileWriteFail
  | breakerInc
deriving Repr, DecidableEq

/-- Platform inputs of one `log` call: the `Date.now()` reading used by the
breaker, one formatter environment per `formatLog` invocation (console and
file re-derivation), and whether the file-sink write succeeds. -/
structure LogEnv where
  now : Int
  console : FmtEnv
  file : FmtEnv
  fileOk : Bool := true

/-- `CustomLogger.log`: level gate, breaker gate for errors (via
`isEnabled`, whose lazy reset may mutate the breaker), `formatLog`,
console write, re-derived color-free file write (guarded by the transport's
try/catch), then `incrementErrorCount` for error-level events.  `none`
models an exception escaping to the caller (the metadata serialization in
`formatLog` is not guarded). -/
def CustomLogger.log (cfg : LoggerConfig) (o : CircuitBreakerOptions)
    (level : Level) (msg : Str) (opts : LogOptions) (env : LogEnv)
    (s : CBState) : Option (List LogAction × CBState) :=
  if shouldLog cfg level = false then some ([], s)
  else
    let gate := if level = .error then isEnabled o env.now s else (true, s)
    if gate.1 = false then some ([], gate.2)
    else
      match formatLog level msg opts cfg.useColors cfg.customLevelColors
        env.console with
      | none => none
      | some con =>
          match (if cfg.hasFileTransport then
                  (formatLog level msg opts false (fun _ => none)
                    env.file).map
                    (fun fl =>
                      [LogAction.format,
                       if env.fileOk then LogAction.fileWrite (removeColors fl)
                       else LogAction.fileWriteFail])
                 else some []) with
          | none => none
          | some fileActs =>
              some ([LogAction.format, LogAction.consoleWrite con] ++ fileActs ++
                (if level = .error then [LogAction.breakerInc] else []),
                if level = .error then
                  (incrementErrorCount o env.now gate.2).1
                else gate.2)

lemma isEnabled_false_state (o : CircuitBreakerOptions) (now : Int)
    (s : CBState) (h : (isEnabled o now s).1 = false) :
    (isEnabled o now s).2 = s := by
  by_cases h1 : s.isOpen = false
  · rw [isEnabled_closed o now s h1] at h
    exact absurd h (by simp)
  · have h1' : s.isOpen = true := by simpa using h1
    by_cases h2 : o.circuitBreakerCooldown ≤ now - s.lastResetTime
    · rw [isEnabled_open_cool o now s h1' h2] at h
      exact absurd h (by simp)
    · rw [isEnabled_open_hot o now s h1' (by omega)]

/-- C2: one `log` call (the common body of debug/info/warn/error):
(i) below the configured minimum level it performs no formatting, no sink
write, no breaker update; (ii) an error-level call with the breaker open
(`isEnabled()` false) likewise performs nothing and leaves the breaker
state unchanged; (iii) otherwise the event is formatted and written to the
console and — exactly when a file transport is configured — re-formatted
color-free and written to the file sink, and `incrementErrorCount` runs
if and only if the level is error, as the last step after the write
attempts (a failing file write still yields the breaker update). -/
theorem C2_log_level_and_breaker_gating (cfg : LoggerConfig)
    (o : CircuitBreakerOptions) (level : Level) (msg : Str)
    (opts : LogOptions) (env : LogEnv) (s : CBState) :
    (shouldLog cfg level = false →
      CustomLogger.log cfg o level msg opts env s = some ([], s)) ∧
    (shouldLog cfg level = true → level = .error →
      (isEnabled o env.now s).1 = false →
      CustomLogger.log cfg o level msg opts env s = some ([], s)) ∧
    (shouldLog cfg level = true →
      (level = .error → (isEnabled o env.now s).1 = true) →
      ∀ con, formatLog level msg opts cfg.useColors cfg.customLevelColors
        env.console = some con →
      ∀ fl, formatLog level msg opts false (fun _ => none) env.file =
        some fl →
      CustomLogger.log cfg o level msg opts env s =
        some ([LogAction.format, LogAction.consoleWrite con] ++
          (if cfg.hasFileTransport then
            [LogAction.format,
             if env.fileOk then LogAction.fileWrite (removeColors fl)
             else LogAction.fileWriteFail]
           else []) ++
          (if level = .error then [LogAction.breakerInc] else []),
          if level = .error then
            (incrementErrorCount o env.now (isEnabled o env.now s).2).1
          else s)) := by
  refine ⟨?_, ?_, ?_⟩
  · intro h
    simp [CustomLogger.log, h]
  · intro h hlv hoff
    subst hlv
    simp [CustomLogger.log, h, hoff, isEnabled_false_state o env.now s hoff]
  · intro h hgate con hcon fl hfl
    by_cases hlv : level = Level.error
    · subst hlv
      have hon := hgate rfl
      cases hft : cfg.hasFileTransport with
      | false => simp [CustomLogger.log, h, hon, hcon, hft]
      | true => simp [CustomLogger.log, h, hon, hcon, hfl, hft]
    · cases hft : cfg.hasFileTransport with
      | false => simp [CustomLogger.log, h, hlv, hcon, hft]
      | true => simp [CustomLogger.log, h, hlv, hcon, hfl, hft]

/-- Closed witness instantiating C2: a debug call below an info threshold
does nothing; an error call against an open breaker does nothing; an info
call with a configured file transport emits console and file writes without
a breaker update; an error call with a failing file write still records the
breaker failure after the writes. -/
theorem C2_log_level_and_breaker_witness :
    CustomLogger.log {} {} .debug ("m".toList) { functionName := ("f".toList) }
      { now := 0, console := {}, file := {} } ⟨0, 0, false⟩ =
      some ([], ⟨0, 0, false⟩) ∧
    CustomLogger.log {} {} .error ("m".toList) { functionName := ("f".toList) }
      { now := 10, console := {}, file := {} } ⟨5, 0, true⟩ =
      some ([], ⟨5, 0, true⟩) ∧
    CustomLogger.log { hasFileTransport := true } {} .info ("m".toList)
      { functionName := ("f".toList) }
      { now := 0, console := {}, file := {} } ⟨0, 0, false⟩ =
      some ([LogAction.format,
             LogAction.consoleWrite ((formatLog .info ("m".toList)
               { functionName := ("f".toList) } true (fun _ => none)
               {}).getD []),
             LogAction.format,
             LogAction.fileWrite (removeColors ((formatLog .info ("m".toList)
               { functionName := ("f".toList) } false (fun _ => none)
               {}).getD []))], ⟨0, 0, false⟩) ∧
    CustomLogger.log { hasFileTransport := true } {} .error ("m".toList)
      { functionName := ("f".toList) }
      { now := 7, console := {}, file := {}, fileOk := false }
      ⟨0, 0, false⟩ =
      some ([LogAction.format,
             LogAction.consoleWrite ((formatLog .error ("m".toList)
               { functionName := ("f".toList) } true (fun _ => none)
               {}).getD []),
             LogAction.format, LogAction.fileWriteFail, LogAction.breakerInc],
            ⟨1, 7, false⟩) := by
  have h1 := C2_log_level_and_breaker_gating {} {} .debug ("m".toList)
    { functionName := ("f".toList) } { now := 0, console := {}, file := {} }
    ⟨0, 0, false⟩
  have h2 := C2_log_level_and_breaker_gating {} {} .error ("m".toList)
    { functionName := ("f".toList) } { now := 10, console := {}, file := {} }
    ⟨5, 0, true⟩
  have h3 := C2_log_level_and_breaker_gating { hasFileTransport := true } {}
    .info ("m".toList) { functionName := ("f".toList) }
    { now := 0, console := {}, file := {} } ⟨0, 0, false⟩
  have h4 := C2_log_level_and_breaker_gating { hasFileTransport := true } {}
    .error ("m".toList) { functionName := ("f".toList) }
    { now := 7, console := {}, file := {}, fileOk := false } ⟨0, 0, false⟩
  refine ⟨h1.1 (by decide), h2.2.1 (by decide) rfl (by decide), ?_, ?_⟩
  · rw [h3.2.2 (by decide) (by intro h; cases h) _ (by rfl) _ (by rfl)]
    decide
  · rw [h4.2.2 (by decide) (by intro _; decide) _ (by rfl) _ (by rfl)]
    decide

/-- C3 counterexample: metadata serialization does not tolerate
non-JSON-serializable values.  A circular metadata object makes
`JSON.stringify` inside `formatLog` throw, and `CustomLogger.log` has no
guard around formatting, so the error propagates to the calling
application code (modelled as `none`) instead of any marker-string
fallback. -/
theorem C3_circular_metadata_throws_counterexample :
    CustomLogger.log {} {} .info ("m".toList)
      { functionName := ("f".toList), metadata := some JsValue.circular }
      { now := 0, console := {}, file := {} } ⟨0, 0, false⟩ = none := by
  decide

/-- C3 (amended): absent metadata serializes as `{}` and the formatted
record carries a `Metadata: {}` line; sink-write failures are caught inside
the file transport and never escape a `log` call; but a metadata value on
which the platform serializer throws makes the whole non-suppressed `log`
call throw to the caller — there is no marker-string fallback. -/
theorem C3_metadata_serialization_amended (cfg : LoggerConfig)
    (o : CircuitBreakerOptions) (level : Level) (msg : Str)
    (opts : LogOptions) (env : LogEnv) (s : CBState) :
    (opts.metadata = none →
      ∀ (useColors : Bool) (clc : Level → Option Str) (fenv : FmtEnv),
        ∃ out, formatLog level msg opts useColors clc fenv = some out ∧
          containsSeg (("Metadata: ".toList) ++ ("\x7b\x7d".toList)) out) ∧
    (∀ v, opts.metadata = some v → stringifyVal v = none →
      shouldLog cfg level = true →
      (level = .error → (isEnabled o env.now s).1 = true) →
      CustomLogger.log cfg o level msg opts env s = none) ∧
    (env.fileOk = false →
      ∀ con, formatLog level msg opts cfg.useColors cfg.customLevelColors
        env.console = some con →
      ∀ fl, formatLog level msg opts false (fun _ => none) env.file =
        some fl →
      shouldLog cfg level = true →
      (level = .error → (isEnabled o env.now s).1 = true) →
      (CustomLogger.log cfg o level msg opts env s).isSome = true) := by
  refine ⟨?_, ?_, ?_⟩
  · intro hmeta useColors clc fenv
    refine ⟨List.flatten (formatSegs level msg opts useColors clc fenv
      ("\x7b\x7d".toList)), by simp [formatLog, hmeta, jsonStringifyMeta], ?_⟩
    rw [formatSegs]
    exact containsSeg_flatten_adjacent
      [fullLogColorOf opts, brightColorOf useColors, fenv.iso,
       (":".toList), Colors.reset, (" ".toList),
       levelColorOf level opts clc, levelStr level, Colors.reset,
       (": ".toList), fullLogColorOf opts, logColorOf opts, msg,
       Colors.reset, ("\n".toList), fullLogColorOf opts,
       dimColorOf useColors, ("Trace Id: ".toList), traceIdOf fenv,
       Colors.reset, ("\n".toList), fullLogColorOf opts,
       dimColorOf useColors, ("Function Name: ".toList),
       opts.functionName, Colors.reset, ("\n".toList), fullLogColorOf opts,
       dimColorOf useColors] ("Metadata: ".toList) ("\x7b\x7d".toList)
      ([Colors.reset] ++ errTailOf opts useColors)
  · intro v hv hst h hgate
    by_cases hlv : level = Level.error
    · subst hlv
      have hon := hgate rfl
      simp [CustomLogger.log, h, hon, formatLog, jsonStringifyMeta, hv, hst]
    · simp [CustomLogger.log, h, hlv, formatLog, jsonStringifyMeta, hv, hst]
  · intro hfo con hcon fl hfl h hgate
    by_cases hlv : level = Level.error
    · subst hlv
      have hon := hgate rfl
      cases hft : cfg.hasFileTransport with
      | false => simp [CustomLogger.log, h, hon, hcon, hft]
      | true => simp [CustomLogger.log, h, hon, hcon, hfl, hft, hfo]
    · cases hft : cfg.hasFileTransport with
      | false => simp [CustomLogger.log, h, hlv, hcon, hft]
      | true => simp [CustomLogger.log, h, hlv, hcon, hfl, hft, hfo]

/-- Closed witness instantiating amended C3: an absent-metadata event
formats with a `Metadata: {}` line; a circular-metadata error call throws;
an event logged against a failing file sink completes without throwing. -/
theorem C3_metadata_serialization_witness :
    (∃ out, formatLog .info ("m".toList) { functionName := ("f".toList) }
      true (fun _ => none) {} = some out ∧
      containsSeg (("Metadata: ".toList) ++ ("\x7b\x7d".toList)) out) ∧
    CustomLogger.log {} {} .error ("m".toList)
      { functionName := ("f".toList), metadata := some JsValue.circular }
      { now := 0, console := {}, file := {} } ⟨0, 0, false⟩ = none ∧
    (CustomLogger.log { hasFileTransport := true } {} .info
      ("m".toList) { functionName := ("f".toList) }
      { now := 0, console := {}, file := {}, fileOk := false }
      ⟨0, 0, false⟩).isSome = true := by
  refine ⟨?_, ?_, ?_⟩
  · exact (C3_metadata_serialization_amended {} {} .info ("m".toList)
      { functionName := ("f".toList) } { now := 0, console := {}, file := {} }
      ⟨0, 0, false⟩).1 rfl true (fun _ => none) {}
  · exact (C3_metadata_serialization_amended {} {} .error ("m".toList)
      { functionName := ("f".toList), metadata := some JsValue.circular }
      { now := 0, console := {}, file := {} } ⟨0, 0, false⟩).2.1
      JsValue.circular rfl rfl (by decide) (by intro _; decide)
  · exact (C3_metadata_serialization_amended { hasFileTransport := true } {}
      .info ("m".toList) { functionName := ("f".toList) }
      { now := 0, console := {}, file := {}, fileOk := false }
      ⟨0, 0, false⟩).2.2 rfl _ (by rfl) _ (by rfl) (by decide)
      (by intro h; cases h)

/-! ### src/log.rotation.ts — `LogRotator.parseSize` -/

-- Lookup table modelling `String.prototype.toLowerCase` on the ASCII
-- range (the only characters the size-spec regex can accept).
def lowerTable : List (Char × Char) :=
  [('A', 'a'), ('B', 'b'), ('C', 'c'), ('D', 'd'), ('E', 'e'), ('F', 'f'),
   ('G', 'g'), ('H', 'h'), ('I', 'i'), ('J', 'j'), ('K', 'k'), ('L', 'l'),
   ('M', 'm'), ('N', 'n'), ('O', 'o'), ('P', 'p'), ('Q', 'q'), ('R', 'r'),
   ('S', 's'), ('T', 't'), ('U', 'u'), ('V', 'v'), ('W', 'w'), ('X', 'x'),
   ('Y', 'y'), ('Z', 'z')]

/-- One character of `sizeStr.toLowerCase()`. -/
def toLowerChar (c : Char) : Char :=
  match lowerTable.find? (fun e => decide (e.1 = c)) with
  | some e => e.2
  | none => c

/-- `sizeStr.toLowerCase()`. -/
def toLowerJs (s : Str) : Str := s.map toLowerChar

/-- The `\s` class of the regex, restricted to ASCII whitespace. -/
def jsSpace (c : Char) : Bool :=
  c = ' ' ∨ c = '\t' ∨ c = '\n' ∨ c = '\r' ∨ c = '\x0b' ∨ c = '\x0c'

/-- Value of a digit string (what `parseFloat` reads before/after the
dot). -/
def natOfDigits (ds : List Char) : Nat :=
  ds.foldl (fun acc c => acc * 10 + (c.toNat - ('0').toNat)) 0

/-- The `units` map of `parseSize` (binary multiples). -/
def unitMult (u : Char) : Nat :=
  if u = 'b' then 1
  else if u = 'k' then 1024
  else if u = 'm' then 1024 * 1024
  else if u = 'g' then 1024 * 1024 * 1024
  else 1

/-- The optional `(?:\.\d+)?` group: on a leading dot, at least one digit
must follow or the whole match fails. -/
def parseFrac : Str → Option (List Char × Str)
  | [] => some ([], [])
  | c :: rest =>
      if c = '.' then
        if (rest.takeWhile Char.isDigit).isEmpty then none
        else some (rest.takeWhile Char.isDigit, rest.dropWhile Char.isDigit)
      else some ([], c :: rest)

/-- The trailing `\s*([bkmg])?$` of the regex: skip whitespace, then an
optional unit character, then end of input. -/
def parseUnitEnd (r : Str) : Option Nat :=
  match r.dropWhile jsSpace with
  | [] => some 1
  | [u] =>
      if u = 'b' ∨ u = 'k' ∨ u = 'm' ∨ u = 'g' then some (unitMult u)
      else none
  | _ => none

/-- The regex match of `parseSize` on the lowercased input: returns the
combined digit string (integer and fraction digits), the number of
fraction digits, and the byte multiple of the unit. -/
def parseSizeVal (l : Str) : Option (Nat × Nat × Nat) :=
  if (l.takeWhile Char.isDigit).isEmpty then none
  else
    match parseFrac (l.dropWhile Char.isDigit) with
    | none => none
    | some (fs, r2) =>
        match parseUnitEnd r2 with
        | none => none
        | some mult =>
            some (natOfDigits (l.takeWhile Char.isDigit ++ fs),
              fs.length, mult)

/-- `LogRotator.parseSize`: the parsed size in bytes
(`Math.floor(size * units[unit])`, computed in exact arithmetic), or the
10 MiB default when the regex does not match. -/
def parseSize (sizeStr : Str) : Nat :=
  match parseSizeVal (toLowerJs sizeStr) with
  | none => 10 * 1024 * 1024
  | some (n, k, mult) => n * mult / 10 ^ k

/-- `<number> [.frac] [spaces] [unit]` — the size-spec shape of the claim,
with the decimal number mandatory (as the regex requires). -/
def dotPart (fs : Str) : Str := if fs = [] then [] else '.' :: fs

def unitPart : Option Char → Str
  | none => []
  | some c => [c]

/-- The unit letters accepted case-insensitively. -/
def unitChars : List Char := ['b', 'k', 'm', 'g', 'B', 'K', 'M', 'G']

/-- Byte multiple a grammar-level unit denotes. -/
def claimMult : Option Char → Nat
  | none => 1
  | some c => unitMult (toLowerChar c)

/-- A string is a size-spec: mandatory digits, optional dot-fraction,
optional whitespace, optional (case-insensitive) unit letter. -/
def SizeSpec (l : Str) : Prop :=
  ∃ (ds fs sp : Str) (u : Option Char),
    ds ≠ [] ∧ (∀ c ∈ ds, c.isDigit = true) ∧
    (∀ c ∈ fs, c.isDigit = true) ∧ (∀ c ∈ sp, jsSpace c = true) ∧
    (∀ c, u = some c → c ∈ unitChars) ∧
    l = ds ++ (dotPart fs ++ (sp ++ unitPart u))

lemma toLowerChar_found (c : Char) (e : Char × Char)
    (h : lowerTable.find? (fun e => decide (e.1 = c)) = some e) :
    e.1 = c ∧ toLowerChar c = e.2 ∧ e ∈ lowerTable := by
  refine ⟨by simpa using List.find?_some h, ?_, List.mem_of_find?_eq_some h⟩
  simp [toLowerChar, h]

lemma toLowerChar_isDigit (c : Char) :
    (toLowerChar c).isDigit = c.isDigit := by
  cases hf : lowerTable.find? (fun e => decide (e.1 = c)) with
  | none => simp [toLowerChar, hf]
  | some e =>
      obtain ⟨h1, h2, h3⟩ := toLowerChar_found c e hf
      have tab : ∀ x ∈ lowerTable, x.1.isDigit = false ∧ x.2.isDigit = false := by
        decide
      rw [h2, ← h1, (tab e h3).1, (tab e h3).2]

lemma toLowerChar_digit (c : Char) (h : c.isDigit = true) :
    toLowerChar c = c := by
  cases hf : lowerTable.find? (fun e => decide (e.1 = c)) with
  | none => simp [toLowerChar, hf]
  | some e =>
      obtain ⟨h1, _, h3⟩ := toLowerChar_found c e hf
      have tab : ∀ x ∈ lowerTable, x.1.isDigit = false := by decide
      rw [← h1] at h
      exact absurd h (by simp [tab e h3])

lemma toLowerChar_jsSpace (c : Char) :
    jsSpace (toLowerChar c) = jsSpace c := by
  cases hf : lowerTable.find? (fun e => decide (e.1 = c)) with
  | none => simp [toLowerChar, hf]
  | some e =>
      obtain ⟨h1, h2, h3⟩ := toLowerChar_found c e hf
      have tab : ∀ x ∈ lowerTable, jsSpace x.1 = false ∧ jsSpace x.2 = false := by
        decide
      rw [h2, ← h1, (tab e h3).1, (tab e h3).2]

lemma toLowerChar_space (c : Char) (h : jsSpace c = true) :
    toLowerChar c = c := by
  cases hf : lowerTable.find? (fun e => decide (e.1 = c)) with
  | none => simp [toLowerChar, hf]
  | some e =>
      obtain ⟨h1, _, h3⟩ := toLowerChar_found c e hf
      have tab : ∀ x ∈ lowerTable, jsSpace x.1 = false := by decide
      rw [← h1] at h
      exact absurd h (by simp [tab e h3])

lemma toLowerChar_dot (c : Char) (h : toLowerChar c = '.') : c = '.' := by
  cases hf : lowerTable.find? (fun e => decide (e.1 = c)) with
  | none => rw [toLowerChar, hf] at h; exact h
  | some e =>
      obtain ⟨h1, h2, h3⟩ := toLowerChar_found c e hf
      have tab : ∀ x ∈ lowerTable, x.2 ≠ '.' := by decide
      rw [h2] at h
      exact absurd h (tab e h3)

lemma toLowerChar_unit_mem (c : Char)
    (h : toLowerChar c ∈ (['b', 'k', 'm', 'g'] : List Char)) :
    c ∈ unitChars := by
  cases hf : lowerTable.find? (fun e => decide (e.1 = c)) with
  | none =>
      rw [toLowerChar, hf] at h
      simp only [unitChars]
      simp at h ⊢
      tauto
  | some e =>
      obtain ⟨h1, h2, h3⟩ := toLowerChar_found c e hf
      have tab : ∀ x ∈ lowerTable,
          x.2 ∈ (['b', 'k', 'm', 'g'] : List Char) → x.1 ∈ unitChars := by
        decide
      rw [h2] at h
      rw [← h1]
      exact tab e h3 h

lemma map_toLowerChar_fixed (l : Str) (h : ∀ c ∈ l, toLowerChar c = c) :
    l.map toLowerChar = l :=
  (List.map_congr_left h).trans (List.map_id l)

lemma takeWhile_dropWhile_append (p : Char → Bool) :
    ∀ (A B : Str), (∀ c ∈ A, p c = true) →
    (∀ b, B.head? = some b → p b = false) →
    (A ++ B).takeWhile p = A ∧ (A ++ B).dropWhile p = B := by
  intro A
  induction A with
  | nil =>
      intro B _ hB
      cases B with
      | nil => exact ⟨rfl, rfl⟩
      | cons b B' =>
          constructor
          · simp [List.takeWhile_cons, hB b rfl]
          · simp [List.dropWhile_cons, hB b rfl]
  | cons a A' ih =>
      intro B hA hB
      have hpa : p a = true := hA a (by simp)
      have h := ih B (fun c hc => hA c (by simp [hc])) hB
      constructor
      · simp [List.takeWhile_cons, hpa, h.1]
      · simp [List.dropWhile_cons, hpa, h.2]

lemma parseFrac_no_dot (B : Str) (h : ∀ b, B.head? = some b → b ≠ '.') :
    parseFrac B = some ([], B) := by
  cases B with
  | nil => rfl
  | cons b B' => simp [parseFrac, h b rfl]

lemma parseFrac_dot (fs R : Str) (hfs : fs ≠ [])
    (hf : ∀ c ∈ fs, Char.isDigit c = true)
    (hR : ∀ b, R.head? = some b → Char.isDigit b = false) :
    parseFrac ('.' :: (fs ++ R)) = some (fs, R) := by
  have h := takeWhile_dropWhile_append Char.isDigit fs R hf hR
  simp [parseFrac, h.1, h.2, hfs]

/-- What the `\s*([bkmg])?$` tail evaluates to once the whitespace has
been skipped. -/
def unitEndSpec : Str → Option Nat
  | [] => some 1
  | [u] =>
      if u = 'b' ∨ u = 'k' ∨ u = 'm' ∨ u = 'g' then some (unitMult u)
      else none
  | _ => none

lemma parseUnitEnd_compute (sp R : Str)
    (hsp : ∀ c ∈ sp, jsSpace c = true)
    (hR : ∀ b, R.head? = some b → jsSpace b = false) :
    parseUnitEnd (sp ++ R) = unitEndSpec R := by
  have h := takeWhile_dropWhile_append jsSpace sp R hsp hR
  rw [parseUnitEnd, h.2]
  rcases R with _ | ⟨u, _ | ⟨v, R''⟩⟩ <;> rfl

lemma jsSpace_props (c : Char) (h : jsSpace c = true) :
    Char.isDigit c = false ∧ c ≠ '.' ∧ c ≠ '\x1b' := by
  have h' : c = ' ' ∨ c = '\t' ∨ c = '\n' ∨ c = '\r' ∨ c = '\x0b' ∨
      c = '\x0c' := by simpa [jsSpace] using h
  rcases h' with rfl | rfl | rfl | rfl | rfl | rfl <;> exact ⟨rfl, by decide, by decide⟩

lemma toLowerJs_unitPart (u : Option Char) :
    toLowerJs (unitPart u) = unitPart (u.map toLowerChar) := by
  cases u <;> rfl

lemma parseSizeVal_grammar (ds fs sp : Str) (u : Option Char)
    (hds : ds ≠ []) (hd : ∀ c ∈ ds, Char.isDigit c = true)
    (hf : ∀ c ∈ fs, Char.isDigit c = true)
    (hsp : ∀ c ∈ sp, jsSpace c = true)
    (hu : ∀ c, u = some c → c ∈ unitChars) :
    parseSizeVal (toLowerJs (ds ++ (dotPart fs ++ (sp ++ unitPart u)))) =
      some (natOfDigits (ds ++ fs), fs.length, claimMult u) := by
  have hlow1 : ∀ x ∈ unitChars,
      toLowerChar x ∈ (['b', 'k', 'm', 'g'] : List Char) ∧
      Char.isDigit (toLowerChar x) = false ∧
      jsSpace (toLowerChar x) = false ∧ toLowerChar x ≠ '.' := by decide
  have hds' : toLowerJs ds = ds :=
    map_toLowerChar_fixed ds (fun c hc => toLowerChar_digit c (hd c hc))
  have hfs' : toLowerJs fs = fs :=
    map_toLowerChar_fixed fs (fun c hc => toLowerChar_digit c (hf c hc))
  have hdot' : toLowerJs (dotPart fs) = dotPart fs := by
    rw [dotPart]
    split
    · rfl
    · show toLowerChar '.' :: toLowerJs fs = _
      rw [hfs', show toLowerChar '.' = '.' from by decide]
  have hsp' : toLowerJs sp = sp :=
    map_toLowerChar_fixed sp (fun c hc => toLowerChar_space c (hsp c hc))
  have hU : toLowerJs (ds ++ (dotPart fs ++ (sp ++ unitPart u))) =
      ds ++ (dotPart fs ++ (sp ++ unitPart (u.map toLowerChar))) := by
    simp only [toLowerJs, List.map_append]
    rw [← toLowerJs, ← toLowerJs, ← toLowerJs, ← toLowerJs,
      hds', hdot', hsp', toLowerJs_unitPart]
  rw [hU]
  have hXhead : ∀ b, (sp ++ unitPart (u.map toLowerChar)).head? = some b →
      Char.isDigit b = false ∧ b ≠ '.' ∧ jsSpace b = false ∨
      jsSpace b = true := by
    intro b hb
    cases sp with
    | cons s0 sp' =>
        right
        have : b = s0 := by simpa using hb.symm
        subst this
        exact hsp b (by simp)
    | nil =>
        left
        cases hu' : u with
        | none => subst hu'; simp [unitPart] at hb
        | some c =>
            subst hu'
            have hc := hlow1 c (hu c rfl)
            have : b = toLowerChar c := by simpa [unitPart] using hb.symm
            subst this
            exact ⟨hc.2.1, hc.2.2.2, hc.2.2.1⟩
  have hXdig : ∀ b, (sp ++ unitPart (u.map toLowerChar)).head? = some b →
      Char.isDigit b = false := by
    intro b hb
    rcases hXhead b hb with h | h
    · exact h.1
    · exact (jsSpace_props b h).1
  have hXdot : ∀ b, (sp ++ unitPart (u.map toLowerChar)).head? = some b →
      b ≠ '.' := by
    intro b hb
    rcases hXhead b hb with h | h
    · exact h.2.1
    · exact (jsSpace_props b h).2.1
  have hRhead : ∀ b,
      (dotPart fs ++ (sp ++ unitPart (u.map toLowerChar))).head? = some b →
      Char.isDigit b = false := by
    intro b hb
    cases hfs0 : fs with
    | nil => rw [hfs0] at hb; simp only [dotPart, if_pos rfl,
        List.nil_append] at hb; exact hXdig b hb
    | cons f0 fs' =>
        rw [hfs0] at hb
        simp only [dotPart, List.cons_append] at hb
        have : b = '.' := by
          have hne : (f0 :: fs' : Str) ≠ [] := by simp
          simp [hne] at hb
          exact hb.symm
        subst this
        decide
  have htw := takeWhile_dropWhile_append Char.isDigit ds
    (dotPart fs ++ (sp ++ unitPart (u.map toLowerChar))) hd hRhead
  rw [parseSizeVal]
  simp only [htw.1, htw.2]
  rw [if_neg (by simpa [List.isEmpty_iff] using hds)]
  have hfrac : parseFrac
      (dotPart fs ++ (sp ++ unitPart (u.map toLowerChar))) =
      some (fs, sp ++ unitPart (u.map toLowerChar)) := by
    cases hfs0 : fs with
    | nil =>
        simp only [dotPart, if_pos rfl, List.nil_append]
        exact parseFrac_no_dot _ hXdot
    | cons f0 fs' =>
        have hne : (f0 :: fs' : Str) ≠ [] := by simp
        simp only [dotPart, if_neg hne, List.cons_append]
        rw [← hfs0]
        rw [hfs0, ← List.cons_append, ← hfs0]
        show parseFrac ('.' :: (fs ++ _)) = _
        exact parseFrac_dot fs _ (by rw [hfs0]; simp) hf hXdig
  simp only [hfrac]
  have hUhead : ∀ b, (unitPart (u.map toLowerChar)).head? = some b →
      jsSpace b = false := by
    intro b hb
    cases hu' : u with
    | none => subst hu'; simp [unitPart] at hb
    | some c =>
        subst hu'
        have hc := hlow1 c (hu c rfl)
        have : b = toLowerChar c := by simpa [unitPart] using hb.symm
        subst this
        exact hc.2.2.1
  rw [parseUnitEnd_compute sp (unitPart (u.map toLowerChar)) hsp hUhead]
  cases hu' : u with
  | none => subst hu'; rfl
  | some c =>
      subst hu'
      have hc := hlow1 c (hu c rfl)
      have hmem : toLowerChar c = 'b' ∨ toLowerChar c = 'k' ∨
          toLowerChar c = 'm' ∨ toLowerChar c = 'g' := by
        simpa using hc.1
      show (match unitEndSpec [toLowerChar c] with
            | none => none
            | some mult =>
                some (natOfDigits (ds ++ fs), fs.length, mult)) =
          some (natOfDigits (ds ++ fs), fs.length, claimMult (some c))
      rw [show unitEndSpec [toLowerChar c] =
          (if toLowerChar c = 'b' ∨ toLowerChar c = 'k' ∨
              toLowerChar c = 'm' ∨ toLowerChar c = 'g' then
            some (unitMult (toLowerChar c)) else none) from rfl]
      rw [if_pos hmem]
      rfl

lemma parseUnitEnd_sound (R : Str) (m : Nat)
    (h : parseUnitEnd (R.map toLowerChar) = some m) :
    ∃ (sp : Str) (u : Option Char), (∀ c ∈ sp, jsSpace c = true) ∧
      (∀ c, u = some c → c ∈ unitChars) ∧ R = sp ++ unitPart u := by
  rw [parseUnitEnd, List.dropWhile_map] at h
  have hspAll : ∀ c ∈ R.takeWhile (jsSpace ∘ toLowerChar),
      jsSpace c = true := by
    intro c hc
    have := List.mem_takeWhile_imp hc
    simp only [Function.comp] at this
    rwa [toLowerChar_jsSpace] at this
  have hsplit : R = R.takeWhile (jsSpace ∘ toLowerChar) ++
      R.dropWhile (jsSpace ∘ toLowerChar) :=
    (List.takeWhile_append_dropWhile _ _).symm
  cases hUc : R.dropWhile (jsSpace ∘ toLowerChar) with
  | nil =>
      refine ⟨R.takeWhile (jsSpace ∘ toLowerChar), none, hspAll, by simp, ?_⟩
      simpa [unitPart, hUc] using hsplit
  | cons c0 U' =>
      rw [hUc] at h
      cases U' with
      | nil =>
          simp only [List.map_cons, List.map_nil] at h
          by_cases hm : toLowerChar c0 = 'b' ∨ toLowerChar c0 = 'k' ∨
              toLowerChar c0 = 'm' ∨ toLowerChar c0 = 'g'
          · refine ⟨R.takeWhile (jsSpace ∘ toLowerChar), some c0, hspAll,
              ?_, ?_⟩
            · intro c hc
              cases hc
              exact toLowerChar_unit_mem c0 (by simpa using hm)
            · simpa [unitPart, hUc] using hsplit
          · rw [if_neg hm] at h
            exact absurd h (by simp)
      | cons c1 U'' =>
          simp only [List.map_cons] at h
          exact absurd h (by simp)

lemma sizeTail_inv (A fs r2 : Str) (v : Nat × Nat × Nat)
    (h : (match parseUnitEnd r2 with
          | none => none
          | some mult =>
              some (natOfDigits (A ++ fs), fs.length, mult)) = some v) :
    ∃ m, parseUnitEnd r2 = some m := by
  cases hue : parseUnitEnd r2 with
  | none => rw [hue] at h; exact absurd h (by simp)
  | some m => exact ⟨m, rfl⟩

lemma parseSizeVal_sound (l : Str) (v : Nat × Nat × Nat)
    (h : parseSizeVal (toLowerJs l) = some v) : SizeSpec l := by
  rw [parseSizeVal, toLowerJs, List.takeWhile_map, List.dropWhile_map] at h
  have hAdig : ∀ c ∈ l.takeWhile (Char.isDigit ∘ toLowerChar),
      Char.isDigit c = true := by
    intro c hc
    have := List.mem_takeWhile_imp hc
    simp only [Function.comp] at this
    rwa [toLowerChar_isDigit] at this
  have hAfix : (l.takeWhile (Char.isDigit ∘ toLowerChar)).map toLowerChar =
      l.takeWhile (Char.isDigit ∘ toLowerChar) :=
    map_toLowerChar_fixed _ (fun c hc => toLowerChar_digit c (hAdig c hc))
  have hsplit : l = l.takeWhile (Char.isDigit ∘ toLowerChar) ++
      l.dropWhile (Char.isDigit ∘ toLowerChar) :=
    (List.takeWhile_append_dropWhile _ _).symm
  by_cases hAe : ((l.takeWhile (Char.isDigit ∘ toLowerChar)).map
      toLowerChar).isEmpty
  · rw [if_pos hAe] at h
    exact absurd h (by simp)
  · rw [if_neg hAe] at h
    have hAne : l.takeWhile (Char.isDigit ∘ toLowerChar) ≠ [] := by
      rw [hAfix] at hAe
      simpa [List.isEmpty_iff] using hAe
    cases hBc : l.dropWhile (Char.isDigit ∘ toLowerChar) with
    | nil =>
        refine ⟨l.takeWhile (Char.isDigit ∘ toLowerChar), [], [], none,
          hAne, hAdig, by simp, by simp, by simp, ?_⟩
        simpa [dotPart, unitPart, hBc] using hsplit
    | cons b B' =>
        rw [hBc] at h
        simp only [List.map_cons] at h
        by_cases hdot : toLowerChar b = '.'
        · have hb : b = '.' := toLowerChar_dot b hdot
          rw [parseFrac, if_pos hdot, List.takeWhile_map,
            List.dropWhile_map] at h
          have hCdig : ∀ c ∈ B'.takeWhile (Char.isDigit ∘ toLowerChar),
              Char.isDigit c = true := by
            intro c hc
            have := List.mem_takeWhile_imp hc
            simp only [Function.comp] at this
            rwa [toLowerChar_isDigit] at this
          have hCfix : (B'.takeWhile (Char.isDigit ∘ toLowerChar)).map
              toLowerChar = B'.takeWhile (Char.isDigit ∘ toLowerChar) :=
            map_toLowerChar_fixed _
              (fun c hc => toLowerChar_digit c (hCdig c hc))
          by_cases hCe : ((B'.takeWhile (Char.isDigit ∘ toLowerChar)).map
              toLowerChar).isEmpty
          · rw [if_pos hCe] at h
            exact absurd h (by simp)
          · rw [if_neg hCe] at h
            have hCne : B'.takeWhile (Char.isDigit ∘ toLowerChar) ≠ [] := by
              rw [hCfix] at hCe
              simpa [List.isEmpty_iff] using hCe
            obtain ⟨m, hue⟩ := sizeTail_inv _ _ _ v h
            obtain ⟨sp, u, hsp, hu, hDu⟩ := parseUnitEnd_sound
              (B'.dropWhile (Char.isDigit ∘ toLowerChar)) m hue
            have hB' : B' = B'.takeWhile (Char.isDigit ∘ toLowerChar) ++
                B'.dropWhile (Char.isDigit ∘ toLowerChar) :=
              (List.takeWhile_append_dropWhile _ _).symm
            refine ⟨l.takeWhile (Char.isDigit ∘ toLowerChar),
              B'.takeWhile (Char.isDigit ∘ toLowerChar), sp, u,
              hAne, hAdig, hCdig, hsp, hu, ?_⟩
            conv_lhs => rw [hsplit, hBc, hb]
            conv_lhs => rw [hB']
            conv_lhs => rw [hDu]
            rw [dotPart, if_neg hCne]
            simp
        · rw [parseFrac, if_neg hdot] at h
          obtain ⟨m, hue⟩ := sizeTail_inv _ _ _ v h
          obtain ⟨sp, u, hsp, hu, hbu⟩ := parseUnitEnd_sound (b :: B') m
            (by simpa using hue)
          refine ⟨l.takeWhile (Char.isDigit ∘ toLowerChar), [], sp, u,
            hAne, hAdig, by simp, hsp, hu, ?_⟩
          conv_lhs => rw [hsplit, hBc, hbu]
          simp [dotPart]

/-- C7 (amended): `parseSize` maps every size-spec — a mandatory decimal
number, an optional fraction, optional whitespace, and an optional
case-insensitive unit letter b/k/m/g — to the floor of the number times the
binary multiple of the unit (no unit = bytes), computing in exact
arithmetic; and every input that is not of this shape maps to the 10 MiB
default. -/
theorem C7_parseSize_spec_and_default :
    (∀ (ds fs sp : Str) (u : Option Char),
      ds ≠ [] → (∀ c ∈ ds, Char.isDigit c = true) →
      (∀ c ∈ fs, Char.isDigit c = true) →
      (∀ c ∈ sp, jsSpace c = true) →
      (∀ c, u = some c → c ∈ unitChars) →
      (parseSize (ds ++ (dotPart fs ++ (sp ++ unitPart u))) : ℤ) =
        ⌊(natOfDigits (ds ++ fs) : ℚ) / (10 : ℚ) ^ fs.length *
          (claimMult u : ℚ)⌋) ∧
    (∀ l : Str, ¬ SizeSpec l → parseSize l = 10 * 1024 * 1024) := by
  constructor
  · intro ds fs sp u hds hd hf hsp hu
    have hcast : (natOfDigits (ds ++ fs) : ℚ) / (10 : ℚ) ^ fs.length *
        (claimMult u : ℚ) =
        ((natOfDigits (ds ++ fs) * claimMult u : ℕ) : ℚ) /
          ((10 ^ fs.length : ℕ) : ℚ) := by
      push_cast
      ring
    rw [hcast, Rat.floor_natCast_div_natCast]
    rw [parseSize, parseSizeVal_grammar ds fs sp u hds hd hf hsp hu]
    exact_mod_cast rfl
  · intro l hls
    cases hp : parseSizeVal (toLowerJs l) with
    | none => rw [parseSize, hp]
    | some v => exact absurd (parseSizeVal_sound l v hp) hls

/-- Closed witness instantiating amended C7: `"1.5k"` parses to
`⌊1.5 * 1024⌋ = 1536` and the non-spec string `"xyz"` falls back to the
default. -/
theorem C7_parseSize_spec_witness :
    (parseSize (['1'] ++ (dotPart ['5'] ++ ([] ++ unitPart (some 'k')))) :
      ℤ) =
      ⌊(natOfDigits (['1'] ++ ['5']) : ℚ) / (10 : ℚ) ^ (['5'] : Str).length *
        (claimMult (some 'k') : ℚ)⌋ ∧
    parseSize ("xyz".toList) = 10 * 1024 * 1024 := by
  constructor
  · exact C7_parseSize_spec_and_default.1 ['1'] ['5'] [] (some 'k')
      (by decide) (by decide) (by decide) (by decide)
      (by intro c hc; cases hc; decide)
  · refine C7_parseSize_spec_and_default.2 ("xyz".toList) ?_
    rintro ⟨ds, fs, sp, u, hne, hdig, -, -, -, heq⟩
    rcases ds with _ | ⟨d, ds'⟩
    · exact hne rfl
    · have hd : d = 'x' := by
        have := congrArg List.head? heq
        simpa using this.symm
      exact absurd (hdig d (by simp)) (by rw [hd]; decide)

/-- C7 counterexample: the claim's grammar makes the decimal number
optional and leaves no room for whitespace.  On the code, `"10 k"`
(whitespace between number and unit, hence unparseable per the claim) maps
to 10240 rather than the default, and the bare unit `"k"` (a size-spec per
the claim) falls back to the default. -/
theorem C7_parseSize_counterexample :
    parseSize ("10 k".toList) = 10240 ∧
    parseSize ("k".toList) = 10 * 1024 * 1024 := by
  constructor <;> decide

/-! ### src/log.rotation.ts — rotation and retention on a directory model

The directory containing the active log file is modelled as a list of
(file name, file info) entries; `dirname`/`basename`/`extname` of the Node
path library are external collaborators, so a path is given directly by
the active file's base name and extension within that directory. -/

structure FileInfo where
  size : Nat
  mtime : Int
deriving Repr, DecidableEq

/-- A directory listing. -/
abbrev FS := List (Str × FileInfo)

/-- `existsSync`/`statSync` against the directory listing. -/
def lookupFile (name : Str) (fs : FS) : Option FileInfo :=
  (fs.find? (fun e => decide (e.1 = name))).map Prod.snd

/-- `unlinkSync`. -/
def removeFile (name : Str) (fs : FS) : FS :=
  fs.filter (fun e => decide (e.1 ≠ name))

/-- `renameSync src dst` (additionally dropping a pre-existing file at
`dst`, as POSIX rename does); the file's metadata travel with it. -/
def renameFile (src dst : Str) (fs : FS) : FS :=
  match lookupFile src fs with
  | none => fs
  | some info =>
      (dst, info) :: fs.filter (fun e => decide (¬(e.1 = src ∨ e.1 = dst)))

/-- The filter of `cleanupOldFiles`:
`file.startsWith(baseName) && file.endsWith(extension) &&
file !== basename(filePath)`. -/
def matchesPattern (base ext name : Str) : Bool :=
  base.isPrefixOf name && ext.isSuffixOf name && decide (name ≠ base ++ ext)

/-- Ordering used by the retention sort: newest first
(`sort((a, b) => b.time - a.time)`). -/
def mtimeGe (a b : Str × FileInfo) : Prop := b.2.mtime ≤ a.2.mtime

instance : DecidableRel mtimeGe := fun a b => Int.decLe _ _

instance : IsTotal (Str × FileInfo) mtimeGe :=
  ⟨fun a b => le_total b.2.mtime a.2.mtime⟩

instance : IsTrans (Str × FileInfo) mtimeGe :=
  ⟨fun _ _ _ h1 h2 => le_trans h2 h1⟩

/-- `LogRotator.cleanupOldFiles`: list the rotated siblings, sort newest
first, and delete every entry beyond index `maxFiles`; each deletion is
individually guarded by its own try/catch, modelled by the `canDelete`
oracle (a failed deletion leaves the entry in place but does not stop the
loop). -/
def cleanupOldFiles (maxFiles : Nat) (canDelete : Str → Bool)
    (base ext : Str) (fs : FS) : FS :=
  let files := fs.filter (fun e => matchesPattern base ext e.1)
  let sorted := files.insertionSort mtimeGe
  if maxFiles < sorted.length then
    (sorted.drop maxFiles).foldl
      (fun acc e => if canDelete e.1 then removeFile e.1 acc else acc) fs
  else fs

/-- The timestamp suffix of `rotateFile`:
`new Date().toISOString().replace(/[:.]/g, '-').replace('T', '_').split('Z')[0]`. -/
def replaceFirstChar (tgt rep : Char) : Str → Str
  | [] => []
  | c :: rest =>
      if c = tgt then rep :: rest else c :: replaceFirstChar tgt rep rest

def rotTimestamp (iso : Str) : Str :=
  (replaceFirstChar 'T' '_'
    (iso.map (fun c => if c = ':' ∨ c = '.' then '-' else c))).takeWhile
    (fun c => decide (c ≠ 'Z'))

/-- `` `${baseName}-${timestamp}${extension}` ``. -/
def rotatedName (base ext iso : Str) : Str :=
  base ++ (('-' :: rotTimestamp iso) ++ ext)

/-- `LogRotator.rotateFile`. -/
def rotateFile (base ext iso : Str) (fs : FS) : FS :=
  renameFile (base ++ ext) (rotatedName base ext iso) fs

/-- `RotationOptions` with constructor defaults. -/
structure RotationOptionsM where
  enabled : Bool := false
  maxSize : Str := "10m".toList
  maxFiles : Nat := 5
  compress : Bool := false

/-- `LogRotator.checkAndRotate`: no-op when disabled or the file is
absent; otherwise rotate and clean up when the size strictly exceeds the
parsed threshold. -/
def checkAndRotate (o : RotationOptionsM) (canDelete : Str → Bool)
    (iso : Str) (base ext : Str) (fs : FS) : FS :=
  if o.enabled = false then fs
  else
    match lookupFile (base ++ ext) fs with
    | none => fs
    | some st =>
        if parseSize o.maxSize < st.size then
          cleanupOldFiles o.maxFiles canDelete base ext
            (rotateFile base ext iso fs)
        else fs

/-- Number of rotated siblings of the active file strictly more recently
modified than `e`. -/
def siblingRank (base ext : Str) (fs : FS) (e : Str × FileInfo) : Nat :=
  ((fs.filter (fun x => matchesPattern base ext x.1)).filter
    (fun g => decide (e.2.mtime < g.2.mtime))).length

lemma mem_drop_iff_rank :
    ∀ (l : List (Str × FileInfo)),
    l.Pairwise (fun a b => b.2.mtime < a.2.mtime) →
    ∀ (N : Nat) (e : Str × FileInfo), e ∈ l →
    (e ∈ l.drop N ↔
      N ≤ (l.filter (fun g => decide (e.2.mtime < g.2.mtime))).length) := by
  intro l
  induction l with
  | nil => intro _ N e he; cases he
  | cons a t ih =>
      intro hp N e he
      rcases hp with _ | ⟨ha, hp'⟩
      cases N with
      | zero => simp [he]
      | succ N =>
          rw [List.drop_succ_cons]
          rcases (List.mem_cons.mp he) with rfl | het
          · constructor
            · intro hmem
              have : e ∈ t := List.mem_of_mem_drop hmem
              exact absurd (ha e this) (lt_irrefl _)
            · intro hle
              have h0 : (t.filter
                  (fun g => decide (e.2.mtime < g.2.mtime))) = [] :=
                List.filter_eq_nil_iff.mpr
                  (fun g hg => by simpa using not_lt.mpr (le_of_lt (ha g hg)))
              rw [List.filter_cons] at hle
              simp [h0] at hle
          · have hlt : e.2.mtime < a.2.mtime := ha e het
            rw [ih hp' N e het, List.filter_cons]
            simp [hlt, Nat.succ_le_succ_iff]
  
lemma nodup_names_eq (fs : FS) (hnodup : fs.Pairwise (fun a b => a.1 ≠ b.1))
    (x e : Str × FileInfo) (hx : x ∈ fs) (he : e ∈ fs) (hname : x.1 = e.1) :
    x = e := by
  induction fs with
  | nil => cases hx
  | cons a t ih =>
      rcases hnodup with _ | ⟨ha, hp'⟩
      rcases List.mem_cons.mp hx with rfl | hxt
      · rcases List.mem_cons.mp he with rfl | het
        · rfl
        · exact absurd hname (ha e het)
      · rcases List.mem_cons.mp he with rfl | het
        · exact absurd hname.symm (ha x hxt)
        · exact ih hp' hxt het

lemma mem_foldl_remove (cd : Str → Bool) :
    ∀ (L : List (Str × FileInfo)) (fs : FS) (e : Str × FileInfo),
    (e ∈ L.foldl
        (fun acc x => if cd x.1 then removeFile x.1 acc else acc) fs ↔
      e ∈ fs ∧ ∀ x ∈ L, cd x.1 = true → x.1 ≠ e.1) := by
  intro L
  induction L with
  | nil => intro fs e; simp
  | cons x L' ih =>
      intro fs e
      rw [List.foldl_cons, ih]
      by_cases hcd : cd x.1 = true
      · rw [if_pos hcd]
        constructor
        · rintro ⟨h1, h2⟩
          have hmem := List.mem_filter.mp h1
          refine ⟨hmem.1, ?_⟩
          intro y hy hcy
          rcases List.mem_cons.mp hy with rfl | hyL
          · have := hmem.2
            simp only [decide_eq_true_eq] at this
            exact Ne.symm this
          · exact h2 y hyL hcy
        · rintro ⟨h1, h2⟩
          refine ⟨List.mem_filter.mpr ⟨h1, ?_⟩, ?_⟩
          · simpa using Ne.symm (h2 x (by simp) hcd)
          · exact fun y hy hcy => h2 y (by simp [hy]) hcy
      · rw [if_neg hcd]
        constructor
        · rintro ⟨h1, h2⟩
          refine ⟨h1, ?_⟩
          intro y hy hcy
          rcases List.mem_cons.mp hy with rfl | hyL
          · exact absurd hcy hcd
          · exact h2 y hyL hcy
        · rintro ⟨h1, h2⟩
          exact ⟨h1, fun y hy hcy => h2 y (by simp [hy]) hcy⟩

/-- C6: retention keeps exactly (at most) `maxFiles` newest siblings:
an entry that is not a rotated sibling (in particular, the active file) is
never deleted; a sibling with fewer than `maxFiles` strictly-newer
siblings survives; a sibling with at least `maxFiles` strictly-newer
siblings whose own deletion succeeds is deleted, irrespective of whether
deleting any other entry fails. -/
theorem C6_cleanupOldFiles_retention (N : Nat) (cd : Str → Bool)
    (base ext : Str) (fs : FS)
    (hnodup : fs.Pairwise (fun a b => a.1 ≠ b.1))
    (hdistinct : (fs.filter (fun e => matchesPattern base ext e.1)).Pairwise
      (fun a b => a.2.mtime ≠ b.2.mtime)) :
    (∀ e ∈ fs, matchesPattern base ext e.1 = false →
      e ∈ cleanupOldFiles N cd base ext fs) ∧
    (∀ e ∈ fs, matchesPattern base ext e.1 = true →
      siblingRank base ext fs e < N →
      e ∈ cleanupOldFiles N cd base ext fs) ∧
    (∀ e ∈ fs, matchesPattern base ext e.1 = true →
      N ≤ siblingRank base ext fs e → cd e.1 = true →
      e ∉ cleanupOldFiles N cd base ext fs) := by
  have hperm : ((fs.filter (fun e => matchesPattern base ext e.1)
      ).insertionSort mtimeGe).Perm
      (fs.filter (fun e => matchesPattern base ext e.1)) :=
    List.perm_insertionSort _ _
  have hsorted := List.sorted_insertionSort mtimeGe
    (fs.filter (fun e => matchesPattern base ext e.1))
  have hne : ((fs.filter (fun e => matchesPattern base ext e.1)
      ).insertionSort mtimeGe).Pairwise
      (fun a b => a.2.mtime ≠ b.2.mtime) :=
    (List.Perm.pairwise_iff (fun h => Ne.symm h) hperm).mpr hdistinct
  have hstrict : ((fs.filter (fun e => matchesPattern base ext e.1)
      ).insertionSort mtimeGe).Pairwise
      (fun a b => b.2.mtime < a.2.mtime) :=
    (hsorted.and hne).imp
      (fun h => lt_of_le_of_ne h.1 (Ne.symm h.2))
  have hrankEq : ∀ e : Str × FileInfo,
      (((fs.filter (fun x => matchesPattern base ext x.1)
        ).insertionSort mtimeGe).filter
        (fun g => decide (e.2.mtime < g.2.mtime))).length =
      siblingRank base ext fs e :=
    fun e => (List.Perm.filter _ hperm).length_eq
  have hclean : cleanupOldFiles N cd base ext fs =
      (if N < ((fs.filter (fun e => matchesPattern base ext e.1)
          ).insertionSort mtimeGe).length then
        (((fs.filter (fun e => matchesPattern base ext e.1)
          ).insertionSort mtimeGe).drop N).foldl
          (fun acc e => if cd e.1 then removeFile e.1 acc else acc) fs
      else fs) := rfl
  refine ⟨?_, ?_, ?_⟩
  · intro e he hfalse
    rw [hclean]
    split
    · rw [mem_foldl_remove]
      refine ⟨he, ?_⟩
      intro x hx hcx hxe
      have hx1 : x ∈ (fs.filter (fun e => matchesPattern base ext e.1)
          ).insertionSort mtimeGe := List.mem_of_mem_drop hx
      have hx2 := (List.mem_filter.mp (hperm.subset hx1)).2
      rw [hxe] at hx2
      rw [hx2] at hfalse
      cases hfalse
    · exact he
  · intro e he htrue hrank
    rw [hclean]
    split
    · rw [mem_foldl_remove]
      refine ⟨he, ?_⟩
      intro x hx hcx hxe
      have hx1 : x ∈ (fs.filter (fun e => matchesPattern base ext e.1)
          ).insertionSort mtimeGe := List.mem_of_mem_drop hx
      have hxfs := (List.mem_filter.mp (hperm.subset hx1)).1
      have hxe' : x = e := nodup_names_eq fs hnodup x e hxfs he hxe
      subst hxe'
      have hxin := (mem_drop_iff_rank _ hstrict N x hx1).mp hx
      rw [hrankEq x] at hxin
      omega
    · exact he
  · intro e he htrue hrank hcd hmem
    rw [hclean] at hmem
    by_cases hlen : N < ((fs.filter (fun e => matchesPattern base ext e.1)
        ).insertionSort mtimeGe).length
    · rw [if_pos hlen, mem_foldl_remove] at hmem
      have hefiles : e ∈ fs.filter (fun x => matchesPattern base ext x.1) :=
        List.mem_filter.mpr ⟨he, htrue⟩
      have hesorted : e ∈ (fs.filter (fun x => matchesPattern base ext x.1)
          ).insertionSort mtimeGe := hperm.mem_iff.mpr hefiles
      have hedrop := (mem_drop_iff_rank _ hstrict N e hesorted).mpr
        (by rw [hrankEq e]; exact hrank)
      exact hmem.2 e hedrop hcd rfl
    · have hefiles : e ∈ fs.filter (fun x => matchesPattern base ext x.1) :=
        List.mem_filter.mpr ⟨he, htrue⟩
      have hlt : siblingRank base ext fs e <
          (fs.filter (fun x => matchesPattern base ext x.1)).length :=
        List.length_filter_lt_length_iff_exists.mpr
          ⟨e, hefiles, by simp⟩
      rw [← hperm.length_eq] at hlt
      omega

/-- Closed witness instantiating C6 with maxFiles = 1 over two rotated
siblings: the active file and the newest sibling survive, the older
sibling is deleted. -/
theorem C6_cleanupOldFiles_witness :
    (((("app.log".toList) : Str), (⟨5, 0⟩ : FileInfo)) ∈
      cleanupOldFiles 1 (fun _ => true) ("app".toList) (".log".toList)
        [(("app.log".toList), ⟨5, 0⟩), (("app-1.log".toList), ⟨7, 10⟩),
         (("app-2.log".toList), ⟨8, 20⟩)]) ∧
    (((("app-2.log".toList) : Str), (⟨8, 20⟩ : FileInfo)) ∈
      cleanupOldFiles 1 (fun _ => true) ("app".toList) (".log".toList)
        [(("app.log".toList), ⟨5, 0⟩), (("app-1.log".toList), ⟨7, 10⟩),
         (("app-2.log".toList), ⟨8, 20⟩)]) ∧
    (((("app-1.log".toList) : Str), (⟨7, 10⟩ : FileInfo)) ∉
      cleanupOldFiles 1 (fun _ => true) ("app".toList) (".log".toList)
        [(("app.log".toList), ⟨5, 0⟩), (("app-1.log".toList), ⟨7, 10⟩),
         (("app-2.log".toList), ⟨8, 20⟩)]) := by
  have h := C6_cleanupOldFiles_retention 1 (fun _ => true) ("app".toList)
    (".log".toList)
    [(("app.log".toList), ⟨5, 0⟩), (("app-1.log".toList), ⟨7, 10⟩),
     (("app-2.log".toList), ⟨8, 20⟩)] (by decide) (by decide)
  exact ⟨h.1 _ (by decide) (by decide),
    h.2.1 _ (by decide) (by decide) (by decide),
    h.2.2 _ (by decide) (by decide) (by decide) rfl⟩

lemma matchesPattern_rotatedName (base ext iso : Str) :
    matchesPattern base ext (rotatedName base ext iso) = true := by
  rw [matchesPattern, rotatedName]
  refine (by simp : ∀ (a b c : Bool), a = true → b = true → c = true →
    (a && b && c) = true) _ _ _ ?_ ?_ ?_
  · exact List.isPrefixOf_iff_prefix.mpr (List.prefix_append _ _)
  · rw [show base ++ (('-' :: rotTimestamp iso) ++ ext) =
      (base ++ ('-' :: rotTimestamp iso)) ++ ext from by simp]
    exact List.isSuffixOf_iff_suffix.mpr (List.suffix_append _ _)
  · simp only [decide_eq_true_eq]
    intro h
    have := congrArg List.length h
    simp at this
    omega

lemma rotatedName_ne_active (base ext iso : Str) :
    rotatedName base ext iso ≠ base ++ ext := by
  intro h
  have := congrArg List.length h
  simp [rotatedName] at this
  omega

/-- C5 (amended): `checkAndRotate` is a no-op when rotation is disabled,
when the active file is absent, and when its size does not strictly exceed
the parsed threshold; when the size exceeds the threshold and no rotated
sibling exists yet, it renames the active file to
`<basename>-<timestamp>.<ext>` in the same directory — where the timestamp
is the ISO-8601 clock reading with `:` and `.` replaced by `-`, `T`
replaced by `_`, and the trailing `Z` dropped — leaving exactly one
rotated sibling and no file under the active name. -/
theorem C5_checkAndRotate_behavior (o : RotationOptionsM)
    (cd : Str → Bool) (iso base ext : Str) (fs : FS) :
    (o.enabled = false → checkAndRotate o cd iso base ext fs = fs) ∧
    (lookupFile (base ++ ext) fs = none →
      checkAndRotate o cd iso base ext fs = fs) ∧
    (∀ st, lookupFile (base ++ ext) fs = some st →
      st.size ≤ parseSize o.maxSize →
      checkAndRotate o cd iso base ext fs = fs) ∧
    (∀ st, o.enabled = true → lookupFile (base ++ ext) fs = some st →
      parseSize o.maxSize < st.size →
      (∀ e ∈ fs, matchesPattern base ext e.1 = false) →
      1 ≤ o.maxFiles →
      checkAndRotate o cd iso base ext fs =
        (rotatedName base ext iso, st) ::
          fs.filter (fun e => decide (¬(e.1 = base ++ ext ∨
            e.1 = rotatedName base ext iso))) ∧
      lookupFile (base ++ ext) (checkAndRotate o cd iso base ext fs) =
        none ∧
      ((checkAndRotate o cd iso base ext fs).filter
        (fun e => matchesPattern base ext e.1)).length = 1) := by
  refine ⟨?_, ?_, ?_, ?_⟩
  · intro h
    rw [checkAndRotate, if_pos h]
  · intro h
    rw [checkAndRotate]
    split
    · rfl
    · rw [h]
  · intro st hst hle
    rw [checkAndRotate]
    split
    · rfl
    · rw [hst]
      simp only [if_neg (not_lt.mpr hle)]
  · intro st hen hst hgt hnosib hmax
    have hrot : rotateFile base ext iso fs =
        (rotatedName base ext iso, st) ::
          fs.filter (fun e => decide (¬(e.1 = base ++ ext ∨
            e.1 = rotatedName base ext iso))) := by
      rw [rotateFile, renameFile, hst]
    have hfilter : ((rotatedName base ext iso, st) ::
        fs.filter (fun e => decide (¬(e.1 = base ++ ext ∨
          e.1 = rotatedName base ext iso)))).filter
        (fun e => matchesPattern base ext e.1) =
        [(rotatedName base ext iso, st)] := by
      rw [List.filter_cons]
      simp only [matchesPattern_rotatedName base ext iso, if_pos]
      rw [List.filter_filter]
      refine congrArg _ (List.filter_eq_nil_iff.mpr ?_)
      intro a ha hpa
      rw [Bool.and_eq_true] at hpa
      exact absurd hpa.1 (by simp [hnosib a ha])
    have hres : checkAndRotate o cd iso base ext fs =
        (rotatedName base ext iso, st) ::
          fs.filter (fun e => decide (¬(e.1 = base ++ ext ∨
            e.1 = rotatedName base ext iso))) := by
      rw [checkAndRotate, if_neg (by simp [hen]), hst]
      simp only [if_pos hgt]
      rw [hrot, cleanupOldFiles]
      simp only [hfilter]
      rw [show ([(rotatedName base ext iso, st)].insertionSort mtimeGe) =
        [(rotatedName base ext iso, st)] from rfl]
      rw [if_neg (by simp; omega)]
    refine ⟨hres, ?_, ?_⟩
    · rw [hres, lookupFile]
      rw [List.find?_eq_none.mpr ?_]
      · rfl
      · intro x hx
        rcases List.mem_cons.mp hx with rfl | hxf
        · simpa using rotatedName_ne_active base ext iso
        · have := (List.mem_filter.mp hxf).2
          simp only [decide_eq_true_eq] at this
          simpa using fun hcon => this (Or.inl hcon)
    · rw [hres, hfilter]
      rfl

/-- C5 counterexample: the rotated file is NOT named
`<basename>-<ISO8601 with ':' '.' → '-'>.<ext>` as the claim states — the
code additionally replaces `'T'` with `'_'` and drops the trailing `'Z'`.
Rotating `app.log` at `2026-10-11T12:34:56.789Z` produces
`app-2026-10-11_12-34-56-789.log`, not `app-2026-10-11T12-34-56-789Z.log`. -/
theorem C5_rotatedName_counterexample :
    lookupFile ("app-2026-10-11T12-34-56-789Z.log".toList)
      (checkAndRotate ⟨true, ("1k".toList), 5, false⟩ (fun _ => true)
        ("2026-10-11T12:34:56.789Z".toList) ("app".toList) (".log".toList)
        [(("app.log".toList), ⟨2000, 0⟩)]) = none ∧
    lookupFile ("app-2026-10-11_12-34-56-789.log".toList)
      (checkAndRotate ⟨true, ("1k".toList), 5, false⟩ (fun _ => true)
        ("2026-10-11T12:34:56.789Z".toList) ("app".toList) (".log".toList)
        [(("app.log".toList), ⟨2000, 0⟩)]) = some ⟨2000, 0⟩ := by
  constructor <;> decide

/-- Closed witness instantiating amended C5: disabled and below-threshold
calls leave the directory untouched; an oversized active file is renamed
to the timestamped sibling, leaving exactly one rotated sibling and no
file under the active name. -/
theorem C5_checkAndRotate_witness :
    checkAndRotate ⟨false, ("1k".toList), 5, false⟩ (fun _ => true)
      ("2026-01-01T00:00:00.000Z".toList) ("app".toList) (".log".toList)
      [(("app.log".toList), ⟨2000, 0⟩)] =
      [(("app.log".toList), ⟨2000, 0⟩)] ∧
    checkAndRotate ⟨true, ("1k".toList), 5, false⟩ (fun _ => true)
      ("2026-01-01T00:00:00.000Z".toList) ("app".toList) (".log".toList)
      [(("app.log".toList), ⟨100, 0⟩)] =
      [(("app.log".toList), ⟨100, 0⟩)] ∧
    lookupFile (("app".toList) ++ (".log".toList))
      (checkAndRotate ⟨true, ("1k".toList), 5, false⟩ (fun _ => true)
        ("2026-01-01T00:00:00.000Z".toList) ("app".toList) (".log".toList)
        [(("app.log".toList), ⟨2000, 0⟩)]) = none ∧
    ((checkAndRotate ⟨true, ("1k".toList), 5, false⟩ (fun _ => true)
        ("2026-01-01T00:00:00.000Z".toList) ("app".toList) (".log".toList)
        [(("app.log".toList), ⟨2000, 0⟩)]).filter
      (fun e => matchesPattern ("app".toList) (".log".toList) e.1)).length
      = 1 := by
  have h1 := C5_checkAndRotate_behavior ⟨false, ("1k".toList), 5, false⟩
    (fun _ => true) ("2026-01-01T00:00:00.000Z".toList) ("app".toList)
    (".log".toList) [(("app.log".toList), ⟨2000, 0⟩)]
  have h2 := C5_checkAndRotate_behavior ⟨true, ("1k".toList), 5, false⟩
    (fun _ => true) ("2026-01-01T00:00:00.000Z".toList) ("app".toList)
    (".log".toList) [(("app.log".toList), ⟨100, 0⟩)]
  have h3 := C5_checkAndRotate_behavior ⟨true, ("1k".toList), 5, false⟩
    (fun _ => true) ("2026-01-01T00:00:00.000Z".toList) ("app".toList)
    (".log".toList) [(("app.log".toList), ⟨2000, 0⟩)]
  refine ⟨h1.1 rfl, h2.2.2.1 ⟨100, 0⟩ (by decide) (by decide), ?_, ?_⟩
  · exact (h3.2.2.2 ⟨2000, 0⟩ rfl (by decide) (by decide) (by decide)
      (by decide)).2.1
  · exact (h3.2.2.2 ⟨2000, 0⟩ rfl (by decide) (by decide) (by decide)
      (by decide)).2.2
